import Mathlib

/-! # Lite-Test: a shallow embedding of `testing.c` / `testing.h`

The harness keeps two file-static variables, `global_suite` (a singly linked list of
heap-allocated `Test` nodes with `head` and `tail` pointers) and `current_test_failed`.
Test bodies are client code written against the header: they may run their own
statements, print, call `lite_test_fail` and `lite_test_register`, and use the
assertion macros, which expand to `if`/`printf`/`lite_test_fail`/`return`.

Modelling conventions
* A pointer `Test *` is a natural number; `0` is `NULL`, and address `a + 1` designates
  cell `a` of `State.heap`.  `malloc` hands out the next fresh cell and is assumed to
  succeed.
* A `const char *` is modelled by the text it points to; a `TestFunc` is a code address,
  resolved through a table `code : Nat → Stmt σ` of function bodies.
* `stdout` is the list of texts written by the successive `printf` calls.
* `int` counters wrap modulo `2^32` (two's complement).
* `Option` results: `none` stands for a run that does not return (an invalid pointer is
  dereferenced, client code does not terminate, or the loop fuel is exhausted).
-/

namespace LiteTest

variable {σ : Type}

/-! ## C expressions -/

/-- C operator `!x` on a scalar: `1` when `x` is zero, `0` otherwise. -/
def c_not (x : Int) : Int := if x = 0 then 1 else 0

/-- C operator `a == b`. -/
def c_eq (a b : Int) : Int := if a = b then 1 else 0

/-- C operator `a != b`. -/
def c_ne (a b : Int) : Int := if a = b then 0 else 1

/-- Result of an `int` computation, reduced to 32-bit two's complement. -/
def wrap_int (x : Int) : Int := (x + 2147483648) % 4294967296 - 2147483648

/-- Text produced by the `%d` conversion of `printf`. -/
def fmt_d (x : Int) : String := toString x

/-! ## Data model (`testing.h`, lines 6-17) -/

/-- A `struct Test`: display name, function pointer, pointer to the next node. -/
structure Test where
  name : String
  func : Nat
  next : Nat
deriving DecidableEq

/-- A `Suite`: pointers to the first and the last node. -/
structure Suite where
  head : Nat
  tail : Nat
deriving DecidableEq

/-- Program state: the `Test` cells obtained from `malloc`, the two statics of `testing.c`,
the text written to standard output, and the client program's own variables. -/
structure State (σ : Type) where
  heap : List Test
  global_suite : Suite
  current_test_failed : Int
  stdout : List String
  user : σ

/-- State at program start: `global_suite = {NULL, NULL}`, `current_test_failed = 0`. -/
def State.init {σ : Type} (u : σ) : State σ :=
  { heap := [], global_suite := ⟨0, 0⟩, current_test_failed := 0, stdout := [], user := u }

/-- Read `*p` for a `Test *p`; `none` when `p` is `NULL` or not an allocated cell. -/
def load (heap : List Test) (p : Nat) : Option Test :=
  if p = 0 then none else heap[p - 1]?

/-- Write `p->next = q`; `none` when `p` is `NULL` or not an allocated cell. -/
def store_next (heap : List Test) (p q : Nat) : Option (List Test) :=
  match load heap p with
  | none => none
  | some n => some (heap.set (p - 1) { n with next := q })

/-! ## `testing.c` -/

/-- Function `lite_test_register` (`testing.c`, lines 7-18). -/
def lite_test_register {σ : Type} (name : String) (func : Nat) (s : State σ) :
    Option (State σ) :=
  let t := s.heap.length + 1
  let heap1 := s.heap ++ [{ name := name, func := func, next := 0 }]
  if s.global_suite.head = 0 then
    some { s with heap := heap1, global_suite := ⟨t, t⟩ }
  else
    match store_next heap1 s.global_suite.tail t with
    | none => none
    | some heap2 => some { s with heap := heap2, global_suite := ⟨s.global_suite.head, t⟩ }

/-- Function `lite_test_fail` (`testing.c`, line 20). -/
def lite_test_fail {σ : Type} (s : State σ) : State σ :=
  { s with current_test_failed := 1 }

/-- Function `lite_test_get_suite` (`testing.c`, line 22): the suite the returned pointer
designates. -/
def lite_test_get_suite {σ : Type} (s : State σ) : Suite := s.global_suite

/-- Append the text of one `printf` call to standard output. -/
def emit {σ : Type} (text : String) (s : State σ) : State σ :=
  { s with stdout := s.stdout ++ [text] }

/-! ## Test bodies -/

/-- Statements of a test body. Conditions and printed texts are evaluated on the client
program's variables. -/
inductive Stmt (σ : Type) where
  /-- The empty statement. -/
  | skip : Stmt σ
  /-- Sequencing `a b`. -/
  | seq : Stmt σ → Stmt σ → Stmt σ
  /-- Conditional `if (c) a`. -/
  | if_then : (σ → Int) → Stmt σ → Stmt σ
  /-- Block `do a while (0)`. -/
  | do_while0 : Stmt σ → Stmt σ
  /-- Client statement acting on the client variables; `none` when it does not return. -/
  | user : (σ → Option σ) → Stmt σ
  /-- Call of `printf` with the formatted text. -/
  | printf : (σ → String) → Stmt σ
  /-- Call `lite_test_fail();`. -/
  | call_fail : Stmt σ
  /-- Call `lite_test_register(name, func);`. -/
  | call_register : String → Nat → Stmt σ
  /-- Statement `return;`. -/
  | ret : Stmt σ

/-- A compound statement: the statements of the list, in sequence. -/
def block {σ : Type} : List (Stmt σ) → Stmt σ
  | [] => .skip
  | a :: rest => .seq a (block rest)

/-- How a statement hands over control: to the next statement, or out of the function. -/
inductive Flow where
  | next
  | returned
deriving DecidableEq

/-- Execution of a statement. -/
def exec {σ : Type} : Stmt σ → State σ → Option (Flow × State σ)
  | .skip, s => some (.next, s)
  | .seq a b, s =>
    match exec a s with
    | none => none
    | some (.returned, s1) => some (.returned, s1)
    | some (.next, s1) => exec b s1
  | .if_then c a, s => if c s.user = 0 then some (.next, s) else exec a s
  | .do_while0 a, s => exec a s
  | .user f, s =>
    match f s.user with
    | none => none
    | some u => some (.next, { s with user := u })
  | .printf text, s => some (.next, emit (text s.user) s)
  | .call_fail, s => some (.next, lite_test_fail s)
  | .call_register name func, s =>
    match lite_test_register name func s with
    | none => none
    | some s1 => some (.next, s1)
  | .ret, s => some (.returned, s)

/-- Call of a `void (*)(void)` function with the given body: the state at its return. -/
def call {σ : Type} (body : Stmt σ) (s : State σ) : Option (State σ) :=
  match exec body s with
  | none => none
  | some (_, s1) => some s1

/-! ## Assertion macros (`testing.h`, lines 26-43)

`file` and `line` stand for `__FILE__` and `__LINE__` at the place of use, `text` for the
spelling of the macro argument (what `#cond` yields). -/

/-- The text of the `printf` calls of the macros: format `"[FAIL] %s:%d: <what>\n"` applied
to `__FILE__` and `__LINE__`, where `<what>` is `ASSERT_TRUE(%s)` applied to `#cond` in
`ASSERT_TRUE` and `%s` applied to `msg` in `ASSERT_FAIL`. -/
def fail_line (file : String) (line : Nat) (what : String) : String :=
  "[FAIL] " ++ file ++ ":" ++ fmt_d line ++ ": " ++ what ++ "\n"

/-- Macro `ASSERT_TRUE(cond)`. -/
def ASSERT_TRUE {σ : Type} (file : String) (line : Nat) (text : String) (cond : σ → Int) :
    Stmt σ :=
  .do_while0
    (.if_then (fun u => c_not (cond u))
      (.seq (.printf fun _ => fail_line file line ("ASSERT_TRUE(" ++ text ++ ")"))
        (.seq .call_fail .ret)))

/-- Macro `ASSERT_FALSE(cond)`, that is `ASSERT_TRUE(!(cond))`. -/
def ASSERT_FALSE {σ : Type} (file : String) (line : Nat) (text : String) (cond : σ → Int) :
    Stmt σ :=
  ASSERT_TRUE file line ("!(" ++ text ++ ")") (fun u => c_not (cond u))

/-- Macro `ASSERT_EQ(a, b)`, that is `ASSERT_TRUE((a) == (b))`. -/
def ASSERT_EQ {σ : Type} (file : String) (line : Nat) (ta tb : String) (a b : σ → Int) :
    Stmt σ :=
  ASSERT_TRUE file line ("(" ++ ta ++ ") == (" ++ tb ++ ")") (fun u => c_eq (a u) (b u))

/-- Macro `ASSERT_NE(a, b)`, that is `ASSERT_TRUE((a) != (b))`. -/
def ASSERT_NE {σ : Type} (file : String) (line : Nat) (ta tb : String) (a b : σ → Int) :
    Stmt σ :=
  ASSERT_TRUE file line ("(" ++ ta ++ ") != (" ++ tb ++ ")") (fun u => c_ne (a u) (b u))

/-- Macro `ASSERT_FAIL(msg)`. -/
def ASSERT_FAIL {σ : Type} (file : String) (line : Nat) (msg : σ → String) : Stmt σ :=
  .do_while0
    (.seq (.printf fun u => fail_line file line (msg u))
      (.seq .call_fail .ret))

/-! ## The runner (`testing.c`, lines 24-40) -/

/-- Ghost record of one loop iteration: the node `t` whose function was called, the value
of `current_test_failed` at the moment of the call `t->func()`, and whether the test was
then counted as failed. -/
structure Visit where
  node : Nat
  flag_at_call : Int
  failed : Bool
deriving DecidableEq

/-- Values at the end of `lite_test_run_all`: the final state, the locals `passed` and
`failed`, and the ghost record of the loop iterations. -/
structure RunResult (σ : Type) where
  state : State σ
  passed : Int
  failed : Int
  log : List Visit

/-- The `while (t)` loop of `lite_test_run_all` (lines 27-38); `fuel` bounds the number of
times the loop condition is evaluated. -/
def run_loop {σ : Type} (code : Nat → Stmt σ) :
    Nat → Nat → Int → Int → List Visit → State σ → Option (RunResult σ)
  | 0, _, _, _, _, _ => none
  | fuel + 1, t, passed, failed, log, s =>
    if t = 0 then some { state := s, passed := passed, failed := failed, log := log }
    else
      let s1 := { s with current_test_failed := 0 }
      match load s1.heap t with
      | none => none
      | some n =>
        match call (code n.func) s1 with
        | none => none
        | some s2 =>
          match load s2.heap t with
          | none => none
          | some n2 =>
            if s2.current_test_failed ≠ 0 then
              run_loop code fuel n2.next passed (wrap_int (failed + 1))
                (log ++ [⟨t, s1.current_test_failed, true⟩])
                (emit ("[FAIL] " ++ n2.name ++ "\n") s2)
            else
              run_loop code fuel n2.next (wrap_int (passed + 1)) failed
                (log ++ [⟨t, s1.current_test_failed, false⟩])
                (emit ("[PASS] " ++ n2.name ++ "\n") s2)

/-- The final `printf` of `lite_test_run_all` (line 39), applied to the values the loop
ended with. -/
def print_summary {σ : Type} (r : RunResult σ) : RunResult σ :=
  let text := "Summary: " ++ fmt_d r.passed ++ " passed, " ++ fmt_d r.failed ++ " failed\n"
  { r with state := emit text r.state }

/-- Function `lite_test_run_all` (`testing.c`, lines 24-40). -/
def lite_test_run_all {σ : Type} (code : Nat → Stmt σ) (fuel : Nat) (s : State σ) :
    Option (RunResult σ) :=
  match run_loop code fuel s.global_suite.head 0 0 [] s with
  | none => none
  | some r => some (print_summary r)

/-! ## Reading the registry -/

/-- Follow `next` from `p` until `NULL`, collecting the nodes met; `none` when a pointer is
invalid or more than `fuel` nodes are met. -/
def walk (heap : List Test) : Nat → Nat → Option (List Test)
  | 0, p => if p = 0 then some [] else none
  | fuel + 1, p =>
    if p = 0 then some []
    else
      match load heap p with
      | none => none
      | some n =>
        match walk heap fuel n.next with
        | none => none
        | some rest => some (n :: rest)

/-- The entries `(name, func)` met when traversing `lite_test_get_suite()` from `head`. -/
def suite_entries {σ : Type} (s : State σ) : Option (List (String × Nat)) :=
  match walk s.heap s.heap.length (lite_test_get_suite s).head with
  | none => none
  | some ns => some (ns.map fun n => (n.name, n.func))

/-- The registrations performed before `main` (one `lite_test_register` call per `TEST`) . -/
def register_all {σ : Type} : List (String × Nat) → State σ → Option (State σ)
  | [], s => some s
  | r :: rest, s =>
    match lite_test_register r.1 r.2 s with
    | none => none
    | some s1 => register_all rest s1

/-! ## Well-formed suites -/

/-- The `next`-chain starting at `p` consists of the cells `c` (address and content, in
order) and ends in `NULL`. -/
def chain (heap : List Test) : Nat → List (Nat × Test) → Prop
  | p, [] => p = 0
  | p, e :: rest => p = e.1 ∧ load heap e.1 = some e.2 ∧ chain heap e.2.next rest

/-- Addresses of the cells of a chain. -/
def addrs (c : List (Nat × Test)) : List Nat := c.map Prod.fst

/-- Entries `(name, func)` held by the cells of a chain. -/
def entries (c : List (Nat × Test)) : List (String × Nat) :=
  c.map fun e => (e.2.name, e.2.func)

/-- The suite of `s` is a well-formed list with cells `c`: `head` starts a chain through
`c` ending in `NULL`, no cell occurs twice, and `tail` is the last cell (`NULL` when the
list is empty). -/
structure well_formed {σ : Type} (s : State σ) (c : List (Nat × Test)) : Prop where
  is_chain : chain s.heap s.global_suite.head c
  nodup : (addrs c).Nodup
  tail_last : s.global_suite.tail = ((addrs c).getLast?).getD 0

/-! ## Properties of test bodies -/

/-- The body contains no call of `lite_test_register`. -/
def registers_nothing {σ : Type} : Stmt σ → Prop
  | .seq a b => registers_nothing a ∧ registers_nothing b
  | .if_then _ a => registers_nothing a
  | .do_while0 a => registers_nothing a
  | .call_register _ _ => False
  | _ => True

/-- Every client statement of the body returns, whatever the client variables hold. -/
def returns {σ : Type} : Stmt σ → Prop
  | .seq a b => returns a ∧ returns b
  | .if_then _ a => returns a
  | .do_while0 a => returns a
  | .user f => ∀ u, f u ≠ none
  | _ => True

/-- Executing the statement from `s` reaches a call of `lite_test_fail`. -/
def calls_fail {σ : Type} : Stmt σ → State σ → Prop
  | .seq a b, s =>
    calls_fail a s ∨ ∃ s1, exec a s = some (.next, s1) ∧ calls_fail b s1
  | .if_then c a, s => c s.user ≠ 0 ∧ calls_fail a s
  | .do_while0 a, s => calls_fail a s
  | .call_fail, _ => True
  | _, _ => False

/-- Executing the statement from `s` arrives, in state `s1`, at a first failing assertion:
an `ASSERT_TRUE` whose condition is false there, or an `ASSERT_FAIL`, at any depth of the
body; what was executed before it ran through without returning. -/
inductive reaches_failing_assertion {σ : Type} : Stmt σ → State σ → State σ → Prop
  | assert_true (b : Stmt σ) (file : String) (line : Nat) (text : String) (cond : σ → Int)
      (s : State σ) : b = ASSERT_TRUE file line text cond → cond s.user = 0 →
      reaches_failing_assertion b s s
  | assert_fail (b : Stmt σ) (file : String) (line : Nat) (msg : σ → String) (s : State σ) :
      b = ASSERT_FAIL file line msg → reaches_failing_assertion b s s
  | seq_first (a b : Stmt σ) (s s1 : State σ) :
      reaches_failing_assertion a s s1 → reaches_failing_assertion (.seq a b) s s1
  | seq_second (a b : Stmt σ) (s s2 s1 : State σ) : exec a s = some (.next, s2) →
      reaches_failing_assertion b s2 s1 → reaches_failing_assertion (.seq a b) s s1
  | if_then (c : σ → Int) (a : Stmt σ) (s s1 : State σ) : c s.user ≠ 0 →
      reaches_failing_assertion a s s1 → reaches_failing_assertion (.if_then c a) s s1
  | do_while0 (a : Stmt σ) (s s1 : State σ) :
      reaches_failing_assertion a s s1 → reaches_failing_assertion (.do_while0 a) s s1

/-- The loop of the runner read off the list of cells instead of the `next` pointers:
the iterations for the cells `c`, in order. -/
def run_entries {σ : Type} (code : Nat → Stmt σ) :
    List (Nat × Test) → Int → Int → List Visit → State σ → Option (RunResult σ)
  | [], passed, failed, log, s =>
    some { state := s, passed := passed, failed := failed, log := log }
  | e :: rest, passed, failed, log, s =>
    match call (code e.2.func) { s with current_test_failed := 0 } with
    | none => none
    | some s2 =>
      if s2.current_test_failed ≠ 0 then
        run_entries code rest passed (wrap_int (failed + 1)) (log ++ [⟨e.1, 0, true⟩])
          (emit ("[FAIL] " ++ e.2.name ++ "\n") s2)
      else
        run_entries code rest (wrap_int (passed + 1)) failed (log ++ [⟨e.1, 0, false⟩])
          (emit ("[PASS] " ++ e.2.name ++ "\n") s2)

/-! ## The report of a run, as the specification words it -/

/-- What one test contributes to the console: its name, the texts its body printed, and
whether its body set the failure flag. -/
structure TestReport where
  name : String
  body_lines : List String
  failed : Bool
deriving DecidableEq

/-- The line closing the report of one test: `[FAIL] <name>` or `[PASS] <name>`. -/
def verdict_line (r : TestReport) : String :=
  if r.failed then "[FAIL] " ++ r.name ++ "\n" else "[PASS] " ++ r.name ++ "\n"

/-- The final line: `Summary: <passed> passed, <failed> failed`, both numbers in decimal. -/
def summary_line (passed failed : Nat) : String :=
  "Summary: " ++ toString passed ++ " passed, " ++ toString failed ++ " failed\n"

/-- The entries are run one after the other in registration order, each from the state
its predecessor left once the flag is cleared; for each one the texts its body printed and
whether it set the flag are recorded, and its verdict line is printed. -/
def test_reports {σ : Type} (code : Nat → Stmt σ) :
    List (String × Nat) → State σ → Option (List TestReport)
  | [], _ => some []
  | r :: rest, s =>
    match call (code r.2) { s with current_test_failed := 0 } with
    | none => none
    | some s2 =>
      let rep : TestReport :=
        ⟨r.1, s2.stdout.drop s.stdout.length, decide (s2.current_test_failed ≠ 0)⟩
      match test_reports code rest (emit (verdict_line rep) s2) with
      | none => none
      | some reps => some (rep :: reps)

/-- The console text a run is described to add: per test, the body's texts then the
verdict line; at the end the summary line with the numbers of passed and failed tests. -/
def report_lines (reps : List TestReport) : List String :=
  (reps.map fun r => r.body_lines ++ [verdict_line r]).flatten ++
    [summary_line (reps.countP fun r => !r.failed) (reps.countP fun r => r.failed)]

/-- The assertion primitive as the specification words it: when the condition holds,
continue with no effect; otherwise print the failure line for the place and the
description, mark the test failed and leave the test body. -/
def assert_true_spec {σ : Type} (file : String) (line : Nat) (description : String)
    (condition : Bool) (s : State σ) : Flow × State σ :=
  if condition then (.next, s)
  else (.returned,
    { s with stdout := s.stdout ++ ["[FAIL] " ++ file ++ ":" ++ toString line ++ ": " ++
                         description ++ "\n"],
             current_test_failed := 1 })

/-- Classification of the test with function `func` when it is started in state `s`:
`some true` for failed, `some false` for passed, `none` when the body does not return. -/
def verdict {σ : Type} (code : Nat → Stmt σ) (func : Nat) (s : State σ) : Option Bool :=
  match call (code func) { s with current_test_failed := 0 } with
  | none => none
  | some s2 => some (decide (s2.current_test_failed ≠ 0))

/-! ## A sample client program

The client keeps one counter. Function `1` is the body of a test `bad`, function `2` the
body of a test `ok`, function `3` leaves a mark in the counter and fails, function `4`
passes when the counter is still zero, function `5` is a single failing assertion:

    bad   (t.c, line 12):  ASSERT_TRUE(1 == 2); counter++;
    ok    (t.c, line 14):  ASSERT_EQ(2+2, 4);
    mark  (t.c, line 16):  counter = 1; ASSERT_FAIL("stop");
    fresh (t.c, line 18):  ASSERT_TRUE(counter == 0);
    wrong (t.c, line 20):  ASSERT_TRUE(1 == 2);
-/

/-- Bodies of the sample tests, by code address. -/
def sample_code : Nat → Stmt Int
  | 1 => block [ASSERT_TRUE "t.c" 12 "1 == 2" (fun _ => c_eq 1 2), .user fun u => some (u + 1)]
  | 2 => ASSERT_EQ "t.c" 14 "2+2" "4" (fun _ => 2 + 2) (fun _ => 4)
  | 3 => block [.user fun _ => some 1, ASSERT_FAIL "t.c" 16 (fun _ => "stop")]
  | 4 => ASSERT_TRUE "t.c" 18 "counter == 0" (fun u => c_eq u 0)
  | 5 => ASSERT_TRUE "t.c" 20 "1 == 2" (fun _ => c_eq 1 2)
  | _ => .skip

/-- The suite after registering `bad` then `ok`. -/
def sample_state : State Int :=
  { heap := [⟨"bad", 1, 2⟩, ⟨"ok", 2, 0⟩], global_suite := ⟨1, 2⟩, current_test_failed := 0,
    stdout := [], user := 0 }

/-- The cells of `sample_state`. -/
def sample_cells : List (Nat × Test) := [(1, ⟨"bad", 1, 2⟩), (2, ⟨"ok", 2, 0⟩)]

/-! ## Calls made outside the runner -/

/-- One call of a function of the harness other than the runner. -/
inductive Op where
  | register (name : String) (func : Nat)
  | fail
  | get_suite

/-- Effect of a sequence of such calls on the state; `lite_test_get_suite` only returns a
pointer. -/
def apply_ops {σ : Type} : List Op → State σ → Option (State σ)
  | [], s => some s
  | .register name func :: rest, s =>
    match lite_test_register name func s with
    | none => none
    | some s1 => apply_ops rest s1
  | .fail :: rest, s => apply_ops rest (lite_test_fail s)
  | .get_suite :: rest, s => apply_ops rest s

/-- The entries registered by a sequence of calls, in call order. -/
def registrations : List Op → List (String × Nat)
  | [] => []
  | .register name func :: rest => (name, func) :: registrations rest
  | .fail :: rest => registrations rest
  | .get_suite :: rest => registrations rest

/-! ## A second sample client program

Function `1` registers a further test while the runner is at work, function `2` is a
passing assertion, function `3` calls `lite_test_fail` itself and goes on, function `4`
passes when the counter is zero, function `5` sets the counter:

    grow   (d.c, line 5):   lite_test_register("late", fine);
    fine   (d.c, line 7):   ASSERT_TRUE(1 == 1);
    sticky (d.c, line 11):  lite_test_fail(); ASSERT_TRUE(1 == 1);
    fresh  (d.c, line 15):  ASSERT_TRUE(counter == 0);
    five   (d.c, line 19):  counter = 5;
-/

/-- Bodies of the tests of the second sample, by code address. -/
def demo_code : Nat → Stmt Int
  | 1 => block [.call_register "late" 2]
  | 2 => ASSERT_TRUE "d.c" 7 "1 == 1" (fun _ => c_eq 1 1)
  | 3 => block [.call_fail, ASSERT_TRUE "d.c" 11 "1 == 1" (fun _ => c_eq 1 1)]
  | 4 => ASSERT_TRUE "d.c" 15 "counter == 0" (fun u => c_eq u 0)
  | 5 => .user fun _ => some 5
  | _ => .skip

/-- A one-entry suite holding the test `name` with function `func`. -/
def single_state (name : String) (func : Nat) (u : Int) : State Int :=
  { heap := [⟨name, func, 0⟩], global_suite := ⟨1, 1⟩, current_test_failed := 0,
    stdout := [], user := u }

/-- The suite `fresh`, `five`, with the counter at `u`. -/
def fresh_five_state (u : Int) : State Int :=
  { heap := [⟨"fresh", 4, 2⟩, ⟨"five", 5, 0⟩], global_suite := ⟨1, 2⟩,
    current_test_failed := 0, stdout := [], user := u }

/-- The suite `mark`, `fresh` of the first sample, with the counter at zero. -/
def mark_fresh_state : State Int :=
  { heap := [⟨"mark", 3, 2⟩, ⟨"fresh", 4, 0⟩], global_suite := ⟨1, 2⟩,
    current_test_failed := 0, stdout := [], user := 0 }

/-- The state of the suite `mark`, `fresh` once the runner has dealt with `mark`, with the
flag at `flag`. -/
def after_mark_state (flag : Int) : State Int :=
  { heap := [⟨"mark", 3, 2⟩, ⟨"fresh", 4, 0⟩], global_suite := ⟨1, 2⟩,
    current_test_failed := flag, stdout := ["[FAIL] t.c:16: stop\n", "[FAIL] mark\n"],
    user := 1 }

/-- The state of the sample suite `bad`, `ok` once the runner has dealt with `bad`, with
the flag at `flag`. -/
def after_bad_state (flag : Int) : State Int :=
  { heap := [⟨"bad", 1, 2⟩, ⟨"ok", 2, 0⟩], global_suite := ⟨1, 2⟩,
    current_test_failed := flag,
    stdout := ["[FAIL] t.c:12: ASSERT_TRUE(1 == 2)\n", "[FAIL] bad\n"], user := 0 }

/-! ## Lemmas on the heap and on chains -/

theorem load_eq_some {heap : List Test} {p : Nat} {n : Test} (h : load heap p = some n) :
    p ≠ 0 ∧ p ≤ heap.length ∧ heap[p - 1]? = some n := by
  unfold load at h
  split at h
  · cases h
  · rename_i hp
    refine ⟨hp, ?_, h⟩
    have := (List.getElem?_eq_some.1 h).1
    omega

theorem load_append {heap : List Test} {p : Nat} {n : Test} (h : load heap p = some n)
    (extra : List Test) : load (heap ++ extra) p = some n := by
  obtain ⟨hp, hle, hget⟩ := load_eq_some h
  unfold load
  rw [if_neg hp, List.getElem?_append_left (by omega)]
  exact hget

theorem load_set_ne {heap : List Test} {p q : Nat} (n : Test) (hq : q ≠ 0) (hp : p ≠ 0) (hne : p ≠ q) :
    load (heap.set (q - 1) n) p = load heap p := by
  unfold load
  rw [if_neg hp, if_neg hp]
  rw [List.getElem?_set_ne]
  omega

theorem load_set_eq {heap : List Test} {q : Nat} {old : Test} (n : Test)
    (h : load heap q = some old) : load (heap.set (q - 1) n) q = some n := by
  obtain ⟨hp, hle, hget⟩ := load_eq_some h
  unfold load
  rw [if_neg hp]
  rw [List.getElem?_set_self]
  omega

theorem load_fresh (heap : List Test) (n : Test) :
    load (heap ++ [n]) (heap.length + 1) = some n := by
  unfold load
  simp

theorem chain_append_heap {heap : List Test} (extra : List Test) :
    ∀ {c : List (Nat × Test)} {p : Nat}, chain heap p c → chain (heap ++ extra) p c := by
  intro c
  induction c with
  | nil => intro p h; exact h
  | cons e rest ih =>
    intro p h
    exact ⟨h.1, load_append h.2.1 extra, ih h.2.2⟩

theorem chain_addr_valid {heap : List Test} :
    ∀ {c : List (Nat × Test)} {p : Nat}, chain heap p c →
      ∀ a ∈ addrs c, a ≠ 0 ∧ a ≤ heap.length := by
  intro c
  induction c with
  | nil => intro p _ a ha; simp [addrs] at ha
  | cons e rest ih =>
    intro p h a ha
    simp only [addrs, List.map_cons, List.mem_cons] at ha
    rcases ha with rfl | ha
    · exact ⟨(load_eq_some h.2.1).1, (load_eq_some h.2.1).2.1⟩
    · exact ih h.2.2 a ha

theorem chain_functional {heap : List Test} :
    ∀ {c d : List (Nat × Test)} {p : Nat}, chain heap p c → chain heap p d → c = d := by
  intro c
  induction c with
  | nil =>
    intro d p hc hd
    cases d with
    | nil => rfl
    | cons e rest =>
      have h0 : p = 0 := hc
      have := (load_eq_some hd.2.1).1
      exact absurd (hd.1 ▸ h0) this
  | cons e rest ih =>
    intro d p hc hd
    cases d with
    | nil =>
      have h0 : p = 0 := hd
      have := (load_eq_some hc.2.1).1
      exact absurd (hc.1 ▸ h0) this
    | cons e2 rest2 =>
      have h1 : e.1 = e2.1 := hc.1.symm.trans hd.1
      have h2 : e.2 = e2.2 := by
        have := hc.2.1
        rw [h1, hd.2.1] at this
        exact (Option.some.inj this).symm
      have h3 : e = e2 := Prod.ext h1 h2
      subst h3
      rw [ih hc.2.2 hd.2.2]

theorem chain_length_le {heap : List Test} {c : List (Nat × Test)} {p : Nat}
    (h : chain heap p c) (hn : (addrs c).Nodup) : c.length ≤ heap.length := by
  have hsub : addrs c ⊆ List.range' 1 heap.length := by
    intro a ha
    have := chain_addr_valid h a ha
    rw [List.mem_range'_1]
    omega
  have := (List.subperm_of_subset hn hsub).length_le
  simpa [addrs] using this

theorem walk_of_chain {heap : List Test} :
    ∀ {c : List (Nat × Test)} {p : Nat} (fuel : Nat), chain heap p c → c.length ≤ fuel →
      walk heap fuel p = some (c.map Prod.snd) := by
  intro c
  induction c with
  | nil =>
    intro p fuel h _
    have h0 : p = 0 := h
    subst h0
    cases fuel <;> simp [walk]
  | cons e rest ih =>
    intro p fuel h hf
    cases fuel with
    | zero => simp at hf
    | succ fuel =>
      have hp : p ≠ 0 := h.1 ▸ (load_eq_some h.2.1).1
      have hl : load heap p = some e.2 := h.1 ▸ h.2.1
      have := ih fuel h.2.2 (by simpa using hf)
      simp [walk, hp, hl, this]

theorem suite_entries_of_well_formed {s : State σ} {c : List (Nat × Test)}
    (h : well_formed s c) : suite_entries s = some (entries c) := by
  unfold suite_entries lite_test_get_suite
  rw [walk_of_chain _ h.is_chain (chain_length_le h.is_chain h.nodup)]
  simp [entries]

/-- Linking a fresh cell behind the last cell of a chain. -/
theorem chain_link {heap : List Test} (new : Test) (hnew : new.next = 0) (q : Nat) (nq : Test) :
    ∀ {c : List (Nat × Test)} {p : Nat}, chain heap p (c ++ [(q, nq)]) →
      (addrs (c ++ [(q, nq)])).Nodup →
      chain ((heap ++ [new]).set (q - 1) { nq with next := heap.length + 1 }) p
        (c ++ [(q, { nq with next := heap.length + 1 }), (heap.length + 1, new)]) := by
  intro c
  induction c with
  | nil =>
    intro p h _
    have hq := load_eq_some h.2.1
    refine ⟨h.1, load_set_eq _ (load_append h.2.1 [new]), rfl, ?_, hnew⟩
    show load _ (heap.length + 1) = some new
    rw [load_set_ne _ hq.1 (by omega) (by simp at hq; omega)]
    exact load_fresh heap new
  | cons e rest ih =>
    intro p h hn
    have hq : q ≠ 0 ∧ q ≤ heap.length :=
      chain_addr_valid h q (by simp [addrs])
    have he := load_eq_some h.2.1
    have hne : e.1 ≠ q := by
      intro heq
      simp [addrs] at hn
      exact hn.1.2 heq
    refine ⟨h.1, ?_, ih h.2.2 ?_⟩
    · rw [load_set_ne _ hq.1 he.1 hne]
      exact load_append h.2.1 [new]
    · simp [addrs] at hn ⊢
      exact hn.2

theorem chain_mem_load {heap : List Test} :
    ∀ {c : List (Nat × Test)} {p : Nat}, chain heap p c → ∀ e ∈ c, load heap e.1 = some e.2 := by
  intro c
  induction c with
  | nil => intro p _ e he; cases he
  | cons e0 rest ih =>
    intro p h e he
    rcases List.mem_cons.1 he with rfl | he
    · exact h.2.1
    · exact ih h.2.2 e he

theorem chain_head_ne_zero {heap : List Test} {c : List (Nat × Test)} {p : Nat}
    (h : chain heap p c) (hc : c ≠ []) : p ≠ 0 := by
  cases c with
  | nil => exact absurd rfl hc
  | cons e rest => exact h.1 ▸ (load_eq_some h.2.1).1

/-- Registration on a well-formed suite: the call returns, the suite stays well formed,
its entries are the old ones followed by the new one, and nothing else changes. -/
theorem register_well_formed {s : State σ} {c : List (Nat × Test)} (h : well_formed s c)
    (name : String) (func : Nat) :
    ∃ s1 c1, lite_test_register name func s = some s1 ∧ well_formed s1 c1 ∧
      entries c1 = entries c ++ [(name, func)] ∧
      addrs c1 = addrs c ++ [s.heap.length + 1] ∧
      s1.heap.length = s.heap.length + 1 ∧
      s1.current_test_failed = s.current_test_failed ∧ s1.stdout = s.stdout ∧
      s1.user = s.user := by
  rcases List.eq_nil_or_concat c with hc | ⟨c0, e, hc⟩
  · subst hc
    have h0 : s.global_suite.head = 0 := h.is_chain
    refine ⟨{ s with heap := s.heap ++ [⟨name, func, 0⟩],
                     global_suite := ⟨s.heap.length + 1, s.heap.length + 1⟩ },
      [(s.heap.length + 1, ⟨name, func, 0⟩)], ?_, ⟨?_, ?_, ?_⟩, ?_, ?_, ?_, rfl, rfl, rfl⟩
    · simp [lite_test_register, h0]
    · exact ⟨rfl, load_fresh _ _, rfl⟩
    · simp [addrs]
    · simp [addrs]
    · simp [entries]
    · simp [addrs]
    · simp
  · rw [List.concat_eq_append] at hc
    subst hc
    obtain ⟨q, nq⟩ := e
    have hhead : s.global_suite.head ≠ 0 := chain_head_ne_zero h.is_chain (by simp)
    have htail : s.global_suite.tail = q := by
      rw [h.tail_last]
      simp [addrs]
    have hload : load s.heap q = some nq := chain_mem_load h.is_chain (q, nq) (by simp)
    have hq := load_eq_some hload
    have hvalid := chain_addr_valid h.is_chain
    refine ⟨{ s with heap := (s.heap ++ [(⟨name, func, 0⟩ : Test)]).set (q - 1)
                        { nq with next := s.heap.length + 1 },
                     global_suite := ⟨s.global_suite.head, s.heap.length + 1⟩ },
      c0 ++ [(q, { nq with next := s.heap.length + 1 }), (s.heap.length + 1, ⟨name, func, 0⟩)],
      ?_, ⟨?_, ?_, ?_⟩, ?_, ?_, ?_, rfl, rfl, rfl⟩
    · simp [lite_test_register, hhead, htail, store_next, load_append hload]
    · exact chain_link ⟨name, func, 0⟩ rfl q nq h.is_chain h.nodup
    · have hn := h.nodup
      have hfresh : s.heap.length + 1 ∉ addrs (c0 ++ [(q, nq)]) := by
        intro hm
        have := (hvalid _ hm).2
        omega
      simp only [addrs, List.map_append, List.map_cons, List.map_nil] at hn hfresh ⊢
      rw [show List.map Prod.fst c0 ++ [q, s.heap.length + 1]
        = (List.map Prod.fst c0 ++ [q]) ++ [s.heap.length + 1] by simp]
      exact List.Nodup.append hn (by simp) (by
        intro a ha hb
        simp at hb
        subst hb
        exact hfresh ha)
    · simp [addrs]
    · simp [entries]
    · simp [addrs]
    · simp

/-- A body without registrations leaves the heap and the suite as they are. -/
theorem exec_frame :
    ∀ (b : Stmt σ) {s s1 : State σ} {fl : Flow}, registers_nothing b →
      exec b s = some (fl, s1) → s1.heap = s.heap ∧ s1.global_suite = s.global_suite := by
  intro b
  induction b with
  | skip => intro s s1 fl _ h; simp [exec] at h; rw [← h.2]; exact ⟨rfl, rfl⟩
  | seq a b iha ihb =>
    intro s s1 fl hr h
    simp only [exec] at h
    cases ha : exec a s with
    | none => rw [ha] at h; cases h
    | some r =>
      obtain ⟨fa, sa⟩ := r
      rw [ha] at h
      have h1 := iha hr.1 ha
      cases fa with
      | returned =>
        simp at h
        rw [← h.2]; exact h1
      | next =>
        have h2 := ihb hr.2 h
        exact ⟨h2.1.trans h1.1, h2.2.trans h1.2⟩
  | if_then c a ih =>
    intro s s1 fl hr h
    simp only [exec] at h
    split at h
    · simp at h; rw [← h.2]; exact ⟨rfl, rfl⟩
    · exact ih hr h
  | do_while0 a ih =>
    intro s s1 fl hr h
    exact ih hr h
  | user f =>
    intro s s1 fl _ h
    simp only [exec] at h
    split at h
    · cases h
    · simp at h; rw [← h.2]; exact ⟨rfl, rfl⟩
  | printf text => intro s s1 fl _ h; simp [exec] at h; rw [← h.2]; exact ⟨rfl, rfl⟩
  | call_fail => intro s s1 fl _ h; simp [exec] at h; rw [← h.2]; exact ⟨rfl, rfl⟩
  | call_register name func => intro s s1 fl hr _; exact absurd hr (by simp [registers_nothing])
  | ret => intro s s1 fl _ h; simp [exec] at h; rw [← h.2]; exact ⟨rfl, rfl⟩

/-- A body without registrations whose client statements return does return. -/
theorem exec_returns :
    ∀ (b : Stmt σ) (s : State σ), registers_nothing b → returns b →
      ∃ fl s1, exec b s = some (fl, s1) := by
  intro b
  induction b with
  | skip => intro s _ _; exact ⟨_, _, rfl⟩
  | seq a b iha ihb =>
    intro s hr ht
    obtain ⟨fa, sa, ha⟩ := iha s hr.1 ht.1
    cases fa with
    | returned => exact ⟨.returned, sa, by simp [exec, ha]⟩
    | next =>
      obtain ⟨fb, sb, hb⟩ := ihb sa hr.2 ht.2
      exact ⟨fb, sb, by simp [exec, ha, hb]⟩
  | if_then c a ih =>
    intro s hr ht
    by_cases hc : c s.user = 0
    · exact ⟨.next, s, by simp [exec, hc]⟩
    · obtain ⟨fa, sa, ha⟩ := ih s hr ht
      exact ⟨fa, sa, by simp [exec, hc, ha]⟩
  | do_while0 a ih =>
    intro s hr ht
    obtain ⟨fa, sa, ha⟩ := ih s hr ht
    exact ⟨fa, sa, by simp [exec, ha]⟩
  | user f =>
    intro s _ ht
    cases hf : f s.user with
    | none => exact absurd hf (ht s.user)
    | some u => exact ⟨.next, { s with user := u }, by simp [exec, hf]⟩
  | printf text => intro s _ _; exact ⟨_, _, rfl⟩
  | call_fail => intro s _ _; exact ⟨_, _, rfl⟩
  | call_register name func => intro s hr _; exact absurd hr (by simp [registers_nothing])
  | ret => intro s _ _; exact ⟨_, _, rfl⟩

theorem call_frame {b : Stmt σ} {s s1 : State σ} (hr : registers_nothing b)
    (h : call b s = some s1) : s1.heap = s.heap ∧ s1.global_suite = s.global_suite := by
  unfold call at h
  cases he : exec b s with
  | none => rw [he] at h; cases h
  | some r =>
    obtain ⟨fl, s2⟩ := r
    rw [he] at h
    simp at h
    subst h
    exact exec_frame b hr he

theorem call_returns {b : Stmt σ} (s : State σ) (hr : registers_nothing b) (ht : returns b) :
    ∃ s1, call b s = some s1 := by
  obtain ⟨fl, s1, h⟩ := exec_returns b s hr ht
  exact ⟨s1, by simp [call, h]⟩

/-- On a chain whose bodies register nothing, the pointer loop performs the iterations
for the cells of the chain, in order. -/
theorem run_loop_eq_run_entries (code : Nat → Stmt σ) :
    ∀ (c : List (Nat × Test)) (fuel p : Nat) (passed failed : Int) (log : List Visit)
      (s : State σ), chain s.heap p c → (∀ e ∈ c, registers_nothing (code e.2.func)) →
      c.length < fuel →
      run_loop code fuel p passed failed log s = run_entries code c passed failed log s := by
  intro c
  induction c with
  | nil =>
    intro fuel p passed failed log s hc _ hf
    have h0 : p = 0 := hc
    cases fuel with
    | zero => simp at hf
    | succ fuel => simp [run_loop, run_entries, h0]
  | cons e rest ih =>
    intro fuel p passed failed log s hc hr hf
    cases fuel with
    | zero => simp at hf
    | succ fuel =>
      have hp : p ≠ 0 := chain_head_ne_zero hc (by simp)
      have hl : load s.heap p = some e.2 := hc.1 ▸ hc.2.1
      have hpe : p = e.1 := hc.1
      simp only [run_loop, run_entries, if_neg hp, hl]
      cases hcall : call (code e.2.func) { s with current_test_failed := 0 } with
      | none => rfl
      | some s2 =>
        have hfr := call_frame (hr e (by simp)) hcall
        have hh : s2.heap = s.heap := hfr.1
        have hl2 : load s2.heap p = some e.2 := by rw [hh]; exact hl
        simp only [hl2]
        have hlen : rest.length < fuel := by simpa using hf
        have hrest : ∀ e ∈ rest, registers_nothing (code e.2.func) :=
          fun e0 he0 => hr e0 (List.mem_cons_of_mem _ he0)
        by_cases hflag : s2.current_test_failed = 0
        · simp only [hflag, ne_eq, not_true_eq_false, if_false]
          rw [hpe]
          exact ih fuel e.2.next _ _ _ _ (by
            show chain (emit _ s2).heap _ _
            simp only [emit, hh]; exact hc.2.2) hrest hlen
        · simp only [hflag, ne_eq, not_false_eq_true, if_true]
          rw [hpe]
          exact ih fuel e.2.next _ _ _ _ (by
            show chain (emit _ s2).heap _ _
            simp only [emit, hh]; exact hc.2.2) hrest hlen

/-- Registration touches neither the flag, nor standard output, nor the client variables. -/
theorem register_frame {name : String} {func : Nat} {s s1 : State σ}
    (h : lite_test_register name func s = some s1) :
    s1.current_test_failed = s.current_test_failed ∧ s1.stdout = s.stdout ∧
      s1.user = s.user := by
  unfold lite_test_register at h
  dsimp only at h
  split at h
  · simp at h; subst h; exact ⟨rfl, rfl, rfl⟩
  · cases hs : store_next (s.heap ++ [{ name := name, func := func, next := 0 }])
        s.global_suite.tail (s.heap.length + 1) with
    | none => rw [hs] at h; cases h
    | some heap2 => rw [hs] at h; simp at h; subst h; exact ⟨rfl, rfl, rfl⟩

/-- Executing a statement only appends to standard output. -/
theorem exec_stdout :
    ∀ (b : Stmt σ) {s s1 : State σ} {fl : Flow}, exec b s = some (fl, s1) →
      ∃ d, s1.stdout = s.stdout ++ d := by
  intro b
  induction b with
  | skip => intro s s1 fl h; simp [exec] at h; exact ⟨[], by simp [← h.2]⟩
  | seq a b iha ihb =>
    intro s s1 fl h
    simp only [exec] at h
    cases ha : exec a s with
    | none => rw [ha] at h; cases h
    | some r =>
      obtain ⟨fa, sa⟩ := r
      rw [ha] at h
      obtain ⟨d1, h1⟩ := iha ha
      cases fa with
      | returned =>
        simp at h
        rw [← h.2]; exact ⟨d1, h1⟩
      | next =>
        obtain ⟨d2, h2⟩ := ihb h
        exact ⟨d1 ++ d2, by rw [h2, h1, List.append_assoc]⟩
  | if_then c a ih =>
    intro s s1 fl h
    simp only [exec] at h
    split at h
    · simp at h; exact ⟨[], by simp [← h.2]⟩
    · exact ih h
  | do_while0 a ih =>
    intro s s1 fl h
    exact ih h
  | user f =>
    intro s s1 fl h
    simp only [exec] at h
    split at h
    · cases h
    · simp at h; exact ⟨[], by simp [← h.2]⟩
  | printf text =>
    intro s s1 fl h; simp [exec] at h; exact ⟨[text s.user], by simp [← h.2, emit]⟩
  | call_fail => intro s s1 fl h; simp [exec] at h; exact ⟨[], by simp [← h.2, lite_test_fail]⟩
  | call_register name func =>
    intro s s1 fl h
    simp only [exec] at h
    cases hr : lite_test_register name func s with
    | none => rw [hr] at h; cases h
    | some s2 =>
      rw [hr] at h
      simp at h
      refine ⟨[], ?_⟩
      rw [← h.2, (register_frame hr).2.1]
      simp
  | ret => intro s s1 fl h; simp [exec] at h; exact ⟨[], by simp [← h.2]⟩

theorem call_stdout {b : Stmt σ} {s s1 : State σ} (h : call b s = some s1) :
    s1.stdout = s.stdout ++ s1.stdout.drop s.stdout.length := by
  unfold call at h
  cases he : exec b s with
  | none => rw [he] at h; cases h
  | some r =>
    obtain ⟨fl, s2⟩ := r
    rw [he] at h
    simp at h
    subst h
    obtain ⟨d, hd⟩ := exec_stdout b he
    rw [hd]
    simp

theorem wrap_int_of_range {x : Int} (h0 : -2147483648 ≤ x) (h1 : x < 2147483648) :
    wrap_int x = x := by
  unfold wrap_int
  omega

theorem fmt_d_natCast (n : Nat) : fmt_d (n : Int) = toString n := rfl

/-- The iterations over the cells of a chain, for bodies that register nothing and
return: the loop returns, and its log, output, counters and final suite are those of the
sequence of per-test reports. -/
theorem run_entries_spec (code : Nat → Stmt σ) :
    ∀ (c : List (Nat × Test)) (passed failed : Int) (log : List Visit) (s : State σ),
      (∀ e ∈ c, registers_nothing (code e.2.func)) → (∀ e ∈ c, returns (code e.2.func)) →
      ∃ r reps, run_entries code c passed failed log s = some r ∧
        test_reports code (entries c) s = some reps ∧
        reps.length = c.length ∧
        r.log = log ++ List.zipWith (fun e rep => (⟨e.1, 0, rep.failed⟩ : Visit)) c reps ∧
        r.state.stdout
          = s.stdout ++ (reps.map fun r => r.body_lines ++ [verdict_line r]).flatten ∧
        r.state.heap = s.heap ∧ r.state.global_suite = s.global_suite ∧
        (0 ≤ passed → 0 ≤ failed → passed + failed + c.length < 2147483648 →
          r.passed = passed + reps.countP (fun r => !r.failed) ∧
          r.failed = failed + reps.countP (fun r => r.failed)) := by
  intro c
  induction c with
  | nil =>
    intro passed failed log s _ _
    exact ⟨_, [], rfl, rfl, rfl, by simp, by simp, rfl, rfl, by intros; simp⟩
  | cons e rest ih =>
    intro passed failed log s hr ht
    obtain ⟨s2, hcall⟩ := call_returns { s with current_test_failed := 0 }
      (hr e (by simp)) (ht e (by simp))
    have hfr := call_frame (hr e (by simp)) hcall
    have hout := call_stdout hcall
    have hrest : ∀ e ∈ rest, registers_nothing (code e.2.func) :=
      fun e0 he0 => hr e0 (List.mem_cons_of_mem _ he0)
    have htrest : ∀ e ∈ rest, returns (code e.2.func) :=
      fun e0 he0 => ht e0 (List.mem_cons_of_mem _ he0)
    by_cases hflag : s2.current_test_failed = 0
    · obtain ⟨r, reps, h1, h2, h3, h4, h5, h6, h7, h8⟩ :=
        ih (wrap_int (passed + 1)) failed (log ++ [⟨e.1, 0, false⟩])
          (emit ("[PASS] " ++ e.2.name ++ "\n") s2) hrest htrest
      refine ⟨r, ⟨e.2.name, s2.stdout.drop s.stdout.length, false⟩ :: reps, ?_, ?_, ?_, ?_, ?_,
        ?_, ?_, ?_⟩
      · simp only [run_entries, hcall, hflag, ne_eq, not_true_eq_false, if_false]
        exact h1
      · simp only [entries, List.map_cons, test_reports, hcall, hflag, ne_eq,
          not_true_eq_false, decide_False]
        simp only [entries] at h2
        simp only [verdict_line]
        simp [h2]
      · simp [h3]
      · rw [h4]; simp
      · rw [h5]
        simp only [emit, List.map_cons, List.flatten_cons, verdict_line]
        rw [hout]
        simp
      · rw [h6]; exact hfr.1
      · rw [h7]; exact hfr.2
      · intro hp hf hlt
        simp only [List.length_cons, Nat.cast_add, Nat.cast_one] at hlt
        have hw : wrap_int (passed + 1) = passed + 1 :=
          wrap_int_of_range (by omega) (by omega)
        obtain ⟨h9, h10⟩ := h8 (by rw [hw]; omega) hf (by rw [hw]; omega)
        rw [h9, h10, hw]
        simp [List.countP_cons]
        omega
    · obtain ⟨r, reps, h1, h2, h3, h4, h5, h6, h7, h8⟩ :=
        ih passed (wrap_int (failed + 1)) (log ++ [⟨e.1, 0, true⟩])
          (emit ("[FAIL] " ++ e.2.name ++ "\n") s2) hrest htrest
      refine ⟨r, ⟨e.2.name, s2.stdout.drop s.stdout.length, true⟩ :: reps, ?_, ?_, ?_, ?_, ?_,
        ?_, ?_, ?_⟩
      · simp only [run_entries, hcall, hflag, ne_eq, not_false_eq_true, if_true]
        exact h1
      · simp only [entries, List.map_cons, test_reports, hcall, hflag, ne_eq,
          not_false_eq_true, decide_True]
        simp only [entries] at h2
        simp only [verdict_line]
        simp [h2]
      · simp [h3]
      · rw [h4]; simp
      · rw [h5]
        simp only [emit, List.map_cons, List.flatten_cons, verdict_line]
        rw [hout]
        simp
      · rw [h6]; exact hfr.1
      · rw [h7]; exact hfr.2
      · intro hp hf hlt
        simp only [List.length_cons, Nat.cast_add, Nat.cast_one] at hlt
        have hw : wrap_int (failed + 1) = failed + 1 :=
          wrap_int_of_range (by omega) (by omega)
        obtain ⟨h9, h10⟩ := h8 hp (by rw [hw]; omega) (by rw [hw]; omega)
        rw [h9, h10, hw]
        simp [List.countP_cons]
        omega

/-! ## Runs over a well-formed suite -/

/-- A run over a well-formed suite whose bodies register nothing is the sequence of
iterations for its cells. -/
theorem run_all_eq_run_entries (code : Nat → Stmt σ) {fuel : Nat} {s : State σ}
    {c : List (Nat × Test)} (hwf : well_formed s c)
    (hreg : ∀ e ∈ c, registers_nothing (code e.2.func)) (hfuel : c.length < fuel) :
    lite_test_run_all code fuel s =
      match run_entries code c 0 0 [] s with
      | none => none
      | some r => some (print_summary r) := by
  unfold lite_test_run_all
  rw [run_loop_eq_run_entries code c fuel _ 0 0 [] s hwf.is_chain hreg hfuel]

theorem map_node_zipWith :
    ∀ (c : List (Nat × Test)) (reps : List TestReport), reps.length = c.length →
      (List.zipWith (fun e rep => (⟨e.1, 0, rep.failed⟩ : Visit)) c reps).map Visit.node
        = addrs c := by
  intro c
  induction c with
  | nil => intro reps _; simp [addrs]
  | cons e rest ih =>
    intro reps h
    cases reps with
    | nil => simp at h
    | cons r reps =>
      simp only [List.zipWith_cons_cons, List.map_cons, addrs]
      rw [ih reps (by simpa using h)]
      simp [addrs]

/-! ## The claims -/

theorem sample_well_formed : well_formed sample_state sample_cells :=
  ⟨by simp [chain, load, sample_state, sample_cells], by decide, rfl⟩

theorem sample_registers_nothing : ∀ e ∈ sample_cells, registers_nothing (sample_code e.2.func) := by
  intro e he
  simp only [sample_cells, List.mem_cons, List.mem_singleton, List.not_mem_nil, or_false] at he
  rcases he with rfl | rfl <;>
    simp [sample_code, block, registers_nothing, ASSERT_TRUE, ASSERT_EQ]

theorem sample_returns : ∀ e ∈ sample_cells, returns (sample_code e.2.func) := by
  intro e he
  simp only [sample_cells, List.mem_cons, List.mem_singleton, List.not_mem_nil, or_false] at he
  rcases he with rfl | rfl <;>
    simp [sample_code, block, returns, ASSERT_TRUE, ASSERT_EQ]

/-- The empty suite of program start is well formed. -/
theorem init_well_formed (u : σ) : well_formed (State.init u) [] :=
  ⟨rfl, by simp [addrs], rfl⟩

/-- Registering a list of entries on a well-formed suite appends them in call order. -/
theorem register_all_well_formed :
    ∀ (rs : List (String × Nat)) (s : State σ) (c : List (Nat × Test)), well_formed s c →
      ∃ s1 c1, register_all rs s = some s1 ∧ well_formed s1 c1 ∧
        entries c1 = entries c ++ rs := by
  intro rs
  induction rs with
  | nil => intro s c h; exact ⟨s, c, rfl, h, by simp⟩
  | cons r rest ih =>
    intro s c h
    obtain ⟨s1, c1, h1, h2, h3, _⟩ := register_well_formed h r.1 r.2
    obtain ⟨s2, c2, h4, h5, h6⟩ := ih s1 c1 h2
    refine ⟨s2, c2, ?_, h5, ?_⟩
    · simp only [register_all, h1]
      exact h4
    · rw [h6, h3]
      simp

/-- C2: on a suite whose traversal from `head` yields the entries `L` (the entries of its
cells `c`), `lite_test_register(name, func)` returns and the traversal then yields
`L ++ [(name, func)]`, for every name and function, with no rejection and no
deduplication; the flag, the output and the client variables are untouched. Consequently,
after the calls `r1 .. rn` from the empty suite of program start, traversing
`lite_test_get_suite()` from `head` through `next` yields exactly `r1 .. rn`. -/
theorem register_appends_entry (s : State σ) (c : List (Nat × Test)) (name : String)
    (func : Nat) (h : well_formed s c) :
    suite_entries s = some (entries c) ∧
    (∃ s1 c1, lite_test_register name func s = some s1 ∧ well_formed s1 c1 ∧
      suite_entries s1 = some (entries c ++ [(name, func)]) ∧
      s1.current_test_failed = s.current_test_failed ∧ s1.stdout = s.stdout ∧
      s1.user = s.user) ∧
    ∀ (u : σ) (rs : List (String × Nat)),
      ∃ s2 c2, register_all rs (State.init u) = some s2 ∧ well_formed s2 c2 ∧
        suite_entries s2 = some rs := by
  refine ⟨suite_entries_of_well_formed h, ?_, ?_⟩
  · obtain ⟨s1, c1, h1, h2, h3, _, _, h6, h7, h8⟩ := register_well_formed h name func
    exact ⟨s1, c1, h1, h2, by rw [suite_entries_of_well_formed h2, h3], h6, h7, h8⟩
  · intro u rs
    obtain ⟨s2, c2, h1, h2, h3⟩ := register_all_well_formed rs (State.init u) [] (init_well_formed u)
    refine ⟨s2, c2, h1, h2, ?_⟩
    rw [suite_entries_of_well_formed h2, h3]
    simp [entries]

/-- Witness for C2: registering the name `bad` a second time on the sample suite, and
the registrations `a`, `a`, empty name from program start. -/
theorem register_appends_entry_witness :
    suite_entries sample_state = some (entries sample_cells) ∧
    (∃ s1 c1, lite_test_register "bad" 2 sample_state = some s1 ∧ well_formed s1 c1 ∧
      suite_entries s1 = some (entries sample_cells ++ [("bad", 2)]) ∧
      s1.current_test_failed = sample_state.current_test_failed ∧
      s1.stdout = sample_state.stdout ∧ s1.user = sample_state.user) ∧
    ∃ s2 c2, register_all [("a", 1), ("a", 1), ("", 2)] (State.init (0 : Int)) = some s2 ∧
      well_formed s2 c2 ∧ suite_entries s2 = some [("a", 1), ("a", 1), ("", 2)] :=
  have h := register_appends_entry sample_state sample_cells "bad" 2 sample_well_formed
  ⟨h.1, h.2.1, h.2.2 0 [("a", 1), ("a", 1), ("", 2)]⟩

/-- Registration keeps every allocated cell, with its name and function. -/
theorem register_load {name : String} {func : Nat} {s s1 : State σ}
    (h : lite_test_register name func s = some s1) {t : Nat} {n : Test}
    (hl : load s.heap t = some n) :
    ∃ n1, load s1.heap t = some n1 ∧ n1.name = n.name ∧ n1.func = n.func := by
  unfold lite_test_register at h
  dsimp only at h
  split at h
  · simp at h; subst h
    exact ⟨n, load_append hl _, rfl, rfl⟩
  · unfold store_next at h
    cases hq : load (s.heap ++ [{ name := name, func := func, next := 0 }])
        s.global_suite.tail with
    | none => rw [hq] at h; cases h
    | some nq =>
      rw [hq] at h
      simp at h
      subst h
      have hl1 := load_append hl [({ name := name, func := func, next := 0 } : Test)]
      by_cases ht : t = s.global_suite.tail
      · subst ht
        rw [hl1] at hq
        cases hq
        exact ⟨_, load_set_eq _ hl1, rfl, rfl⟩
      · refine ⟨n, ?_, rfl, rfl⟩
        show load (List.set _ _ _) t = some n
        rw [load_set_ne _ (load_eq_some hq).1 (load_eq_some hl).1 ht]
        exact hl1

/-- Executing a statement keeps every allocated cell, with its name and function. -/
theorem exec_load :
    ∀ (b : Stmt σ) {s s1 : State σ} {fl : Flow} {t : Nat} {n : Test},
      exec b s = some (fl, s1) → load s.heap t = some n →
      ∃ n1, load s1.heap t = some n1 ∧ n1.name = n.name ∧ n1.func = n.func := by
  intro b
  induction b with
  | skip => intro s s1 fl t n h hl; simp [exec] at h; rw [← h.2]; exact ⟨n, hl, rfl, rfl⟩
  | seq a b iha ihb =>
    intro s s1 fl t n h hl
    simp only [exec] at h
    cases ha : exec a s with
    | none => rw [ha] at h; cases h
    | some r =>
      obtain ⟨fa, sa⟩ := r
      rw [ha] at h
      obtain ⟨n1, h1, h2, h3⟩ := iha ha hl
      cases fa with
      | returned =>
        simp at h
        rw [← h.2]; exact ⟨n1, h1, h2, h3⟩
      | next =>
        obtain ⟨n2, h4, h5, h6⟩ := ihb h h1
        exact ⟨n2, h4, h5.trans h2, h6.trans h3⟩
  | if_then c a ih =>
    intro s s1 fl t n h hl
    simp only [exec] at h
    split at h
    · simp at h; rw [← h.2]; exact ⟨n, hl, rfl, rfl⟩
    · exact ih h hl
  | do_while0 a ih =>
    intro s s1 fl t n h hl
    exact ih h hl
  | user f =>
    intro s s1 fl t n h hl
    simp only [exec] at h
    split at h
    · cases h
    · simp at h; rw [← h.2]; exact ⟨n, hl, rfl, rfl⟩
  | printf text =>
    intro s s1 fl t n h hl; simp [exec] at h; rw [← h.2]; exact ⟨n, hl, rfl, rfl⟩
  | call_fail =>
    intro s s1 fl t n h hl; simp [exec] at h; rw [← h.2]; exact ⟨n, hl, rfl, rfl⟩
  | call_register name func =>
    intro s s1 fl t n h hl
    simp only [exec] at h
    cases hr : lite_test_register name func s with
    | none => rw [hr] at h; cases h
    | some s2 =>
      rw [hr] at h
      simp at h
      rw [← h.2]
      exact register_load hr hl
  | ret => intro s s1 fl t n h hl; simp [exec] at h; rw [← h.2]; exact ⟨n, hl, rfl, rfl⟩

/-- Effect of `ASSERT_TRUE` when the condition is false. -/
theorem exec_ASSERT_TRUE_false (file : String) (line : Nat) (text : String) (cond : σ → Int)
    (s : State σ) (h : cond s.user = 0) :
    exec (ASSERT_TRUE file line text cond) s = some (.returned, lite_test_fail
      (emit (fail_line file line ("ASSERT_TRUE(" ++ text ++ ")")) s)) := by
  simp [ASSERT_TRUE, exec, c_not, h]

/-- Effect of `ASSERT_TRUE` when the condition is true. -/
theorem exec_ASSERT_TRUE_true (file : String) (line : Nat) (text : String) (cond : σ → Int)
    (s : State σ) (h : cond s.user ≠ 0) :
    exec (ASSERT_TRUE file line text cond) s = some (.next, s) := by
  simp [ASSERT_TRUE, exec, c_not, h]

/-- Effect of `ASSERT_FAIL`. -/
theorem exec_ASSERT_FAIL (file : String) (line : Nat) (msg : σ → String) (s : State σ) :
    exec (ASSERT_FAIL file line msg) s = some (.returned, lite_test_fail
      (emit (fail_line file line (msg s.user)) s)) := by
  simp [ASSERT_FAIL, exec]

/-- Executing a compound statement: the first part, then the rest unless the first part
returned. -/
theorem exec_block_append :
    ∀ (pre rest : List (Stmt σ)) (s : State σ),
      exec (block (pre ++ rest)) s =
        match exec (block pre) s with
        | none => none
        | some (.returned, s1) => some (.returned, s1)
        | some (.next, s1) => exec (block rest) s1 := by
  intro pre
  induction pre with
  | nil => intro rest s; simp [block, exec]
  | cons a pre ih =>
    intro rest s
    simp only [List.cons_append, block, exec]
    cases ha : exec a s with
    | none => rfl
    | some r =>
      obtain ⟨fa, sa⟩ := r
      cases fa with
      | returned => rfl
      | next => exact ih rest sa

/-- A statement whose execution reaches no call of `lite_test_fail` leaves the flag as
it is. -/
theorem exec_flag_of_not_calls_fail :
    ∀ (b : Stmt σ) {s s1 : State σ} {fl : Flow}, exec b s = some (fl, s1) →
      ¬ calls_fail b s → s1.current_test_failed = s.current_test_failed := by
  intro b
  induction b with
  | skip => intro s s1 fl h _; simp [exec] at h; rw [← h.2]
  | seq a b iha ihb =>
    intro s s1 fl h hn
    simp only [exec] at h
    cases ha : exec a s with
    | none => rw [ha] at h; cases h
    | some r =>
      obtain ⟨fa, sa⟩ := r
      rw [ha] at h
      have h1 := iha ha (fun hc => hn (Or.inl hc))
      cases fa with
      | returned =>
        simp at h
        rw [← h.2]; exact h1
      | next =>
        have h2 := ihb h (fun hc => hn (Or.inr ⟨sa, ha, hc⟩))
        exact h2.trans h1
  | if_then c a ih =>
    intro s s1 fl h hn
    simp only [exec] at h
    split at h
    · simp at h; rw [← h.2]
    · rename_i hc
      exact ih h (fun hcf => hn ⟨hc, hcf⟩)
  | do_while0 a ih =>
    intro s s1 fl h hn
    exact ih h hn
  | user f =>
    intro s s1 fl h _
    simp only [exec] at h
    split at h
    · cases h
    · simp at h; rw [← h.2]
  | printf text => intro s s1 fl h _; simp [exec] at h; rw [← h.2]; rfl
  | call_fail => intro s s1 fl _ hn; exact absurd trivial hn
  | call_register name func =>
    intro s s1 fl h _
    simp only [exec] at h
    cases hr : lite_test_register name func s with
    | none => rw [hr] at h; cases h
    | some s2 =>
      rw [hr] at h
      simp at h
      rw [← h.2]
      exact (register_frame hr).1
  | ret => intro s s1 fl h _; simp [exec] at h; rw [← h.2]

/-- `ASSERT_TRUE` reaches `lite_test_fail` exactly when its condition is false. -/
theorem calls_fail_ASSERT_TRUE (file : String) (line : Nat) (text : String) (cond : σ → Int)
    (s : State σ) : calls_fail (ASSERT_TRUE file line text cond) s ↔ cond s.user = 0 := by
  by_cases h : cond s.user = 0 <;> simp [ASSERT_TRUE, calls_fail, exec, c_not, h]

/-- `ASSERT_FAIL` always reaches `lite_test_fail`. -/
theorem calls_fail_ASSERT_FAIL (file : String) (line : Nat) (msg : σ → String)
    (s : State σ) : calls_fail (ASSERT_FAIL file line msg) s := by
  simp [ASSERT_FAIL, calls_fail, exec]

/-- Each report records the verdict of its test in the state in which the test started. -/
theorem test_reports_verdict (code : Nat → Stmt σ) :
    ∀ (L : List (String × Nat)) (s : State σ) (reps : List TestReport),
      test_reports code L s = some reps →
      ∀ (i : Nat) (r : String × Nat), L[i]? = some r →
        ∃ x rep, reps[i]? = some rep ∧ verdict code r.2 x = some rep.failed := by
  intro L
  induction L with
  | nil => intro s reps _ i r hi; simp at hi
  | cons r0 rest ih =>
    intro s reps h i r hi
    simp only [test_reports] at h
    cases hcall : call (code r0.2) { s with current_test_failed := 0 } with
    | none => rw [hcall] at h; cases h
    | some s2 =>
      rw [hcall] at h
      dsimp only at h
      cases hrest : test_reports code rest
          (emit (verdict_line ⟨r0.1, s2.stdout.drop s.stdout.length,
            decide (s2.current_test_failed ≠ 0)⟩) s2) with
      | none => rw [hrest] at h; cases h
      | some reps1 =>
        rw [hrest] at h
        simp only [Option.some.injEq] at h
        subst h
        cases i with
        | zero =>
          simp only [List.getElem?_cons_zero, Option.some.injEq] at hi
          subst hi
          exact ⟨s, ⟨r0.1, s2.stdout.drop s.stdout.length,
            decide (s2.current_test_failed ≠ 0)⟩, by simp, by simp [verdict, hcall]⟩
        | succ i =>
          simp only [List.getElem?_cons_succ] at hi ⊢
          exact ih _ reps1 hrest i r hi

/-- Counterexample to C5 as stated: in the suite `mark`, `fresh` the test `fresh` is
counted as failed, while alone in a one-entry suite, started with the same values of the
client variables, it is counted as passed. -/
theorem isolation_counterexample :
    well_formed
      ({ heap := [⟨"mark", 3, 2⟩, ⟨"fresh", 4, 0⟩], global_suite := ⟨1, 2⟩,
         current_test_failed := 0, stdout := [], user := 0 } : State Int)
      [(1, ⟨"mark", 3, 2⟩), (2, ⟨"fresh", 4, 0⟩)] ∧
    well_formed
      ({ heap := [⟨"fresh", 4, 0⟩], global_suite := ⟨1, 1⟩,
         current_test_failed := 0, stdout := [], user := 0 } : State Int)
      [(1, ⟨"fresh", 4, 0⟩)] ∧
    (∃ r, lite_test_run_all sample_code 3
        { heap := [⟨"mark", 3, 2⟩, ⟨"fresh", 4, 0⟩], global_suite := ⟨1, 2⟩,
          current_test_failed := 0, stdout := [], user := 0 } = some r ∧
      r.log = [⟨1, 0, true⟩, ⟨2, 0, true⟩]) ∧
    (∃ r, lite_test_run_all sample_code 2
        { heap := [⟨"fresh", 4, 0⟩], global_suite := ⟨1, 1⟩,
          current_test_failed := 0, stdout := [], user := 0 } = some r ∧
      r.log = [⟨1, 0, false⟩]) :=
  ⟨⟨by simp [chain, load], by decide, rfl⟩, ⟨by simp [chain, load], by decide, rfl⟩,
    ⟨_, rfl, rfl⟩, ⟨_, rfl, rfl⟩⟩

/-- A run over a well-formed suite whose bodies register nothing and return: it returns,
and its log, counters, output and final suite are those of the per-test reports. -/
theorem run_all_spec (code : Nat → Stmt σ) {fuel : Nat} {s : State σ}
    {c : List (Nat × Test)} (hwf : well_formed s c)
    (hreg : ∀ e ∈ c, registers_nothing (code e.2.func))
    (hret : ∀ e ∈ c, returns (code e.2.func)) (hfuel : c.length < fuel) :
    ∃ r reps, lite_test_run_all code fuel s = some r ∧
      test_reports code (entries c) s = some reps ∧
      reps.length = c.length ∧
      r.log = List.zipWith (fun e rep => (⟨e.1, 0, rep.failed⟩ : Visit)) c reps ∧
      r.state.stdout
        = s.stdout ++ (reps.map fun r => r.body_lines ++ [verdict_line r]).flatten ++
          ["Summary: " ++ fmt_d r.passed ++ " passed, " ++ fmt_d r.failed ++ " failed\n"] ∧
      r.state.heap = s.heap ∧ r.state.global_suite = s.global_suite ∧
      (c.length < 2147483648 →
        r.passed = reps.countP (fun r => !r.failed) ∧
        r.failed = reps.countP (fun r => r.failed)) := by
  obtain ⟨r, reps, h1, h2, h3, h4, h5, h6, h7, h8⟩ := run_entries_spec code c 0 0 [] s hreg hret
  refine ⟨print_summary r, reps, ?_, h2, h3, ?_, ?_, h6, h7, ?_⟩
  · rw [run_all_eq_run_entries code hwf hreg hfuel, h1]
  · show r.log = _
    rw [h4]; simp
  · show r.state.stdout ++ _ = _
    rw [h5]
    rfl
  · intro hlt
    have := h8 (le_refl 0) (le_refl 0) (by omega)
    simpa using this

/-- C5, amended: on a well-formed suite whose bodies register nothing and return, take the
test at position `i` and assume its verdict does not depend on the state it is started
in. Then the run returns with one logged iteration per test (a failing test does not stop
it), and the classification logged for test `i` is the one the same function gets when
run alone in a one-entry suite. -/
theorem isolation_of_state_independent_test (code : Nat → Stmt σ) (fuel fuel1 : Nat)
    (s s1 : State σ) (cells : List (Nat × Test)) (i : Nat) (e : Nat × Test) (a : Nat) (n1 : Test)
    (hwf : well_formed s cells)
    (hreg : ∀ e ∈ cells, registers_nothing (code e.2.func))
    (hret : ∀ e ∈ cells, returns (code e.2.func)) (hfuel : cells.length < fuel)
    (hi : cells[i]? = some e)
    (hstable : ∀ x y : State σ, verdict code e.2.func x = verdict code e.2.func y)
    (hwf1 : well_formed s1 [(a, n1)]) (hfunc : n1.func = e.2.func) (hfuel1 : 1 < fuel1) :
    ∃ r r1 v, lite_test_run_all code fuel s = some r ∧
      lite_test_run_all code fuel1 s1 = some r1 ∧
      r.log.length = cells.length ∧
      r.log[i]? = some ⟨e.1, 0, v⟩ ∧ r1.log = [⟨a, 0, v⟩] := by
  have hmem : e ∈ cells := List.getElem?_mem hi
  obtain ⟨r, reps, h1, h2, h3, h4, _⟩ := run_all_spec code hwf hreg hret hfuel
  obtain ⟨r1, reps1, g1, g2, g3, g4, _⟩ := run_all_spec code hwf1
    (by intro e0 he0; simp at he0; subst he0; show registers_nothing (code n1.func)
        rw [hfunc]; exact hreg e hmem)
    (by intro e0 he0; simp at he0; subst he0; show returns (code n1.func)
        rw [hfunc]; exact hret e hmem)
    (by simpa using hfuel1)
  have hie : (entries cells)[i]? = some (e.2.name, e.2.func) := by simp [entries, hi]
  obtain ⟨x, rep, hx1, hx2⟩ := test_reports_verdict code _ s reps h2 i _ hie
  have h0e : (entries [(a, n1)])[0]? = some (n1.name, n1.func) := by simp [entries]
  obtain ⟨y, rep1, hy1, hy2⟩ := test_reports_verdict code _ s1 reps1 g2 0 _ h0e
  have hv : rep1.failed = rep.failed := by
    have := hstable y x
    simp only [hfunc] at hy2
    rw [hx2, hy2] at this
    exact Option.some.inj this
  refine ⟨r, r1, rep.failed, h1, g1, ?_, ?_, ?_⟩
  · rw [h4]; simp [h3]
  · rw [h4, List.getElem?_zipWith, hi, hx1]
  · rw [g4]
    cases reps1 with
    | nil => simp at g3
    | cons q rest =>
      cases rest with
      | nil =>
        simp at hy1
        subst hy1
        simp [hv]
      | cons q2 rest2 => simp at g3

/-- The verdict of the sample test `ok` is the same from every state. -/
theorem sample_ok_stable (x y : State Int) : verdict sample_code 2 x = verdict sample_code 2 y := by
  simp [verdict, sample_code, ASSERT_EQ, call, exec_ASSERT_TRUE_true, c_eq]

/-- Witness for the amended C5: the passing test `ok`, registered after the failing test
`bad`, is classified as when it runs alone. -/
theorem isolation_of_state_independent_test_witness :
    ∃ r r1 v, lite_test_run_all sample_code 3 sample_state = some r ∧
      lite_test_run_all sample_code 2
        { heap := [⟨"ok", 2, 0⟩], global_suite := ⟨1, 1⟩, current_test_failed := 0,
          stdout := [], user := 0 } = some r1 ∧
      r.log.length = sample_cells.length ∧
      r.log[1]? = some ⟨2, 0, v⟩ ∧ r1.log = [⟨1, 0, v⟩] :=
  isolation_of_state_independent_test sample_code 3 2 sample_state
    { heap := [⟨"ok", 2, 0⟩], global_suite := ⟨1, 1⟩, current_test_failed := 0,
      stdout := [], user := 0 }
    sample_cells 1 (2, ⟨"ok", 2, 0⟩) 1 ⟨"ok", 2, 0⟩
    sample_well_formed sample_registers_nothing sample_returns (by decide) rfl
    sample_ok_stable ⟨by simp [chain, load], by decide, rfl⟩ rfl (by decide)

/-- Well-formedness of the suite depends on the heap and the suite pointers only. -/
theorem well_formed_congr {s s1 : State σ} {c : List (Nat × Test)} (h : well_formed s c)
    (hh : s1.heap = s.heap) (hs : s1.global_suite = s.global_suite) : well_formed s1 c :=
  ⟨by rw [hh, hs]; exact h.is_chain, h.nodup, by rw [hs]; exact h.tail_last⟩

theorem flag_zipWith :
    ∀ (c : List (Nat × Test)) (reps : List TestReport),
      ∀ v ∈ List.zipWith (fun e rep => (⟨e.1, 0, rep.failed⟩ : Visit)) c reps,
        v.flag_at_call = 0 := by
  intro c
  induction c with
  | nil => intro reps v hv; simp at hv
  | cons e rest ih =>
    intro reps v hv
    cases reps with
    | nil => simp at hv
    | cons r reps =>
      simp only [List.zipWith_cons_cons, List.mem_cons] at hv
      rcases hv with rfl | hv
      · rfl
      · exact ih reps v hv

/-- The per-test reports do not depend on the value of the flag at the start. -/
theorem test_reports_flag (code : Nat → Stmt σ) (L : List (String × Nat)) (s : State σ)
    (flag : Int) :
    test_reports code L { s with current_test_failed := flag } = test_reports code L s := by
  cases L <;> rfl

/-- C6: whatever value `flag` the failure flag has when `lite_test_run_all` is entered, on
a well-formed suite whose bodies register nothing and return, the run returns, calls the
function of every cell, and at each of these calls `current_test_failed` is `0`: the body
of every test starts with a clear flag, also after a test that failed. The logged
classifications are the same for every other entry value `flag2` of the flag. -/
theorem flag_clear_when_each_body_starts (code : Nat → Stmt σ) (fuel : Nat) (s : State σ)
    (c : List (Nat × Test)) (flag : Int) (hwf : well_formed s c)
    (hreg : ∀ e ∈ c, registers_nothing (code e.2.func))
    (hret : ∀ e ∈ c, returns (code e.2.func)) (hfuel : c.length < fuel) :
    ∃ r, lite_test_run_all code fuel { s with current_test_failed := flag } = some r ∧
      r.log.map Visit.node = addrs c ∧ (∀ v ∈ r.log, v.flag_at_call = 0) ∧
      ∀ flag2 : Int, ∃ r2,
        lite_test_run_all code fuel { s with current_test_failed := flag2 } = some r2 ∧
        r2.log = r.log := by
  obtain ⟨r, reps, h1, h2, h3, h4, _⟩ := run_all_spec code
    (well_formed_congr hwf rfl rfl : well_formed { s with current_test_failed := flag } c)
    hreg hret hfuel
  refine ⟨r, h1, ?_, ?_, ?_⟩
  · rw [h4]; exact map_node_zipWith c reps h3
  · rw [h4]; exact flag_zipWith c reps
  · intro flag2
    obtain ⟨r2, reps2, g1, g2, _, g4, _⟩ := run_all_spec code
      (well_formed_congr hwf rfl rfl : well_formed { s with current_test_failed := flag2 } c)
      hreg hret hfuel
    refine ⟨r2, g1, ?_⟩
    rw [test_reports_flag] at h2 g2
    rw [h2] at g2
    cases g2
    rw [g4, h4]

/-- Witness for C6: the sample suite entered with the flag set; its first test fails. -/
theorem flag_clear_when_each_body_starts_witness :
    ∃ r, lite_test_run_all sample_code 3 { sample_state with current_test_failed := 1 }
        = some r ∧
      r.log.map Visit.node = addrs sample_cells ∧ (∀ v ∈ r.log, v.flag_at_call = 0) ∧
      ∀ flag2 : Int, ∃ r2,
        lite_test_run_all sample_code 3 { sample_state with current_test_failed := flag2 }
          = some r2 ∧
        r2.log = r.log :=
  flag_clear_when_each_body_starts sample_code 3 sample_state sample_cells 1
    sample_well_formed sample_registers_nothing sample_returns (by decide)

/-- The reports carry the names of the entries, in order. -/
theorem test_reports_names (code : Nat → Stmt σ) :
    ∀ (L : List (String × Nat)) (s : State σ) (reps : List TestReport),
      test_reports code L s = some reps → reps.map TestReport.name = L.map Prod.fst := by
  intro L
  induction L with
  | nil => intro s reps h; simp [test_reports] at h; subst h; rfl
  | cons r0 rest ih =>
    intro s reps h
    simp only [test_reports] at h
    cases hcall : call (code r0.2) { s with current_test_failed := 0 } with
    | none => rw [hcall] at h; cases h
    | some s2 =>
      rw [hcall] at h
      dsimp only at h
      cases hrest : test_reports code rest
          (emit (verdict_line ⟨r0.1, s2.stdout.drop s.stdout.length,
            decide (s2.current_test_failed ≠ 0)⟩) s2) with
      | none => rw [hrest] at h; cases h
      | some reps1 =>
        rw [hrest] at h
        simp only [Option.some.injEq] at h
        subst h
        simp [ih _ reps1 hrest]

theorem map_failed_zipWith :
    ∀ (c : List (Nat × Test)) (reps : List TestReport), reps.length = c.length →
      (List.zipWith (fun e rep => (⟨e.1, 0, rep.failed⟩ : Visit)) c reps).map Visit.failed
        = reps.map TestReport.failed := by
  intro c
  induction c with
  | nil => intro reps h; cases reps with
    | nil => rfl
    | cons r reps => simp at h
  | cons e rest ih =>
    intro reps h
    cases reps with
    | nil => simp at h
    | cons r reps =>
      simp only [List.zipWith_cons_cons, List.map_cons]
      rw [ih reps (by simpa using h)]

/-- C7: on a well-formed suite with fewer than `2^31` cells whose bodies register nothing
and return, one call of `lite_test_run_all` appends to standard output exactly the report
the specification describes: for each entry in registration order the texts its body
printed followed by `[FAIL] <name>` when the body set the flag and `[PASS] <name>`
otherwise, then the line `Summary: <passed> passed, <failed> failed` with the decimal
numbers of tests classified passed and failed; the locals `passed` and `failed` hold these
numbers. -/
theorem console_output_of_run (code : Nat → Stmt σ) (fuel : Nat) (s : State σ)
    (c : List (Nat × Test)) (hwf : well_formed s c)
    (hreg : ∀ e ∈ c, registers_nothing (code e.2.func))
    (hret : ∀ e ∈ c, returns (code e.2.func)) (hfuel : c.length < fuel)
    (hint : c.length < 2147483648) :
    ∃ r reps, lite_test_run_all code fuel s = some r ∧
      suite_entries s = some (entries c) ∧
      test_reports code (entries c) s = some reps ∧
      reps.map TestReport.name = (entries c).map Prod.fst ∧
      r.log.map Visit.failed = reps.map TestReport.failed ∧
      r.passed = reps.countP (fun r => !r.failed) ∧
      r.failed = reps.countP (fun r => r.failed) ∧
      r.state.stdout = s.stdout ++ report_lines reps := by
  obtain ⟨r, reps, h1, h2, h3, h4, h5, _, _, h8⟩ := run_all_spec code hwf hreg hret hfuel
  obtain ⟨hp, hf⟩ := h8 hint
  refine ⟨r, reps, h1, suite_entries_of_well_formed hwf, h2, ?_, ?_, hp, hf, ?_⟩
  · exact test_reports_names code _ s reps h2
  · rw [h4]; exact map_failed_zipWith c reps h3
  · rw [h5, hp, hf, fmt_d_natCast, fmt_d_natCast]
    simp [report_lines, summary_line]

/-- Witness for C7: the sample suite, `bad` (fails) then `ok` (passes). -/
theorem console_output_of_run_witness :
    (∃ r reps, lite_test_run_all sample_code 3 sample_state = some r ∧
      suite_entries sample_state = some (entries sample_cells) ∧
      test_reports sample_code (entries sample_cells) sample_state = some reps ∧
      reps.map TestReport.name = (entries sample_cells).map Prod.fst ∧
      r.log.map Visit.failed = reps.map TestReport.failed ∧
      r.passed = reps.countP (fun r => !r.failed) ∧
      r.failed = reps.countP (fun r => r.failed) ∧
      r.state.stdout = sample_state.stdout ++ report_lines reps) ∧
    (lite_test_run_all sample_code 3 sample_state).map (fun r => r.state.stdout) =
      some ["[FAIL] t.c:12: ASSERT_TRUE(1 == 2)\n", "[FAIL] bad\n", "[PASS] ok\n",
        "Summary: 1 passed, 1 failed\n"] :=
  ⟨console_output_of_run sample_code 3 sample_state sample_cells sample_well_formed
    sample_registers_nothing sample_returns (by decide) (by decide), by decide⟩

theorem count_passed_add_failed (reps : List TestReport) :
    reps.countP (fun r => !r.failed) + reps.countP (fun r => r.failed) = reps.length := by
  induction reps with
  | nil => rfl
  | cons r rest ih =>
    cases hr : r.failed <;> simp [List.countP_cons, hr] <;> omega

/-- C9: `ASSERT_TRUE(cond)` at file `file`, line `line`, where `text` is the spelling of
`cond`. When `cond` is false it prints exactly `[FAIL] <file>:<line>: ASSERT_TRUE(<text>)`,
sets the failure flag and returns from the test body, so that a statement `rest` placed
after it is not executed; when `cond` is true it leaves the state unchanged and `rest` is
executed next. A suite holding one test `bad` with body `ASSERT_TRUE(1 == 2)` (line 20 of
`t.c`) prints the assertion's line, `[FAIL] bad` and `Summary: 0 passed, 1 failed`. -/
theorem ASSERT_TRUE_effect (file : String) (line : Nat) (text : String) (cond : σ → Int)
    (s : State σ) (rest : Stmt σ) :
    exec (ASSERT_TRUE file line text cond) s =
      (if cond s.user = 0 then
        some (.returned,
          { s with stdout := s.stdout ++ ["[FAIL] " ++ file ++ ":" ++ toString line ++
                               ": " ++ ("ASSERT_TRUE(" ++ text ++ ")") ++ "\n"],
                   current_test_failed := 1 })
      else some (.next, s)) ∧
    exec (.seq (ASSERT_TRUE file line text cond) rest) s =
      (if cond s.user = 0 then exec (ASSERT_TRUE file line text cond) s else exec rest s) ∧
    (match register_all [("bad", 5)] (State.init (0 : Int)) with
      | none => none
      | some s0 => (lite_test_run_all sample_code 2 s0).map fun r => r.state.stdout) =
      some ["[FAIL] t.c:20: ASSERT_TRUE(1 == 2)\n", "[FAIL] bad\n",
        "Summary: 0 passed, 1 failed\n"] := by
  refine ⟨?_, ?_, by decide⟩
  · by_cases h : cond s.user = 0
    · rw [if_pos h, exec_ASSERT_TRUE_false file line text cond s h]
      rfl
    · rw [if_neg h, exec_ASSERT_TRUE_true file line text cond s h]
  · by_cases h : cond s.user = 0
    · rw [if_pos h]
      have e := exec_ASSERT_TRUE_false file line text cond s h
      rw [exec, e]
    · rw [if_neg h]
      have e := exec_ASSERT_TRUE_true file line text cond s h
      rw [exec, e]

/-- C10: the derived assertions behave as the assertion primitive of the specification
applied to the derived condition: `ASSERT_FALSE(c)` is `ASSERT_TRUE(!(c))` and fails
exactly when `c` is true (non-zero); `ASSERT_EQ(a, b)` is `ASSERT_TRUE((a) == (b))` and
fails exactly when `a` and `b` differ; `ASSERT_NE(a, b)` is `ASSERT_TRUE((a) != (b))` and
fails exactly when they are equal. A suite holding one test `ok` with body
`ASSERT_EQ(2+2, 4)` prints `[PASS] ok` and `Summary: 1 passed, 0 failed`. -/
theorem derived_assertions_refine_spec (file : String) (line : Nat) (text ta tb : String)
    (c a b : σ → Int) (s : State σ) :
    exec (ASSERT_FALSE file line text c) s =
      exec (ASSERT_TRUE file line ("!(" ++ text ++ ")") (fun u => c_not (c u))) s ∧
    exec (ASSERT_FALSE file line text c) s =
      some (assert_true_spec file line ("ASSERT_TRUE(" ++ ("!(" ++ text ++ ")") ++ ")")
        (!decide (c s.user ≠ 0)) s) ∧
    exec (ASSERT_EQ file line ta tb a b) s =
      exec (ASSERT_TRUE file line ("(" ++ ta ++ ") == (" ++ tb ++ ")")
        (fun u => c_eq (a u) (b u))) s ∧
    exec (ASSERT_EQ file line ta tb a b) s =
      some (assert_true_spec file line
        ("ASSERT_TRUE(" ++ ("(" ++ ta ++ ") == (" ++ tb ++ ")") ++ ")")
        (decide (a s.user = b s.user)) s) ∧
    exec (ASSERT_NE file line ta tb a b) s =
      exec (ASSERT_TRUE file line ("(" ++ ta ++ ") != (" ++ tb ++ ")")
        (fun u => c_ne (a u) (b u))) s ∧
    exec (ASSERT_NE file line ta tb a b) s =
      some (assert_true_spec file line
        ("ASSERT_TRUE(" ++ ("(" ++ ta ++ ") != (" ++ tb ++ ")") ++ ")")
        (!decide (a s.user = b s.user)) s) ∧
    (match register_all [("ok", 2)] (State.init (0 : Int)) with
      | none => none
      | some s0 => (lite_test_run_all sample_code 2 s0).map fun r => r.state.stdout) =
      some ["[PASS] ok\n", "Summary: 1 passed, 0 failed\n"] := by
  refine ⟨rfl, ?_, rfl, ?_, rfl, ?_, by decide⟩
  · by_cases h : c s.user = 0
    · rw [ASSERT_FALSE, exec_ASSERT_TRUE_true _ _ _ _ _ (by simp [c_not, h])]
      simp [assert_true_spec, h]
    · rw [ASSERT_FALSE, exec_ASSERT_TRUE_false _ _ _ _ _ (by simp [c_not, h])]
      simp [assert_true_spec, h, lite_test_fail, emit, fail_line, fmt_d_natCast]
  · by_cases h : a s.user = b s.user
    · rw [ASSERT_EQ, exec_ASSERT_TRUE_true _ _ _ _ _ (by simp [c_eq, h])]
      simp [assert_true_spec, h]
    · rw [ASSERT_EQ, exec_ASSERT_TRUE_false _ _ _ _ _ (by simp [c_eq, h])]
      simp [assert_true_spec, h, lite_test_fail, emit, fail_line, fmt_d_natCast]
  · by_cases h : a s.user = b s.user
    · rw [ASSERT_NE, exec_ASSERT_TRUE_false _ _ _ _ _ (by simp [c_ne, h])]
      simp [assert_true_spec, h, lite_test_fail, emit, fail_line, fmt_d_natCast]
    · rw [ASSERT_NE, exec_ASSERT_TRUE_true _ _ _ _ _ (by simp [c_ne, h])]
      simp [assert_true_spec, h]

/-! ## Further claims -/

/-- One iteration of the loop for a test whose body returns with the flag set. -/
theorem run_loop_failed_step (code : Nat → Stmt σ) (fuel t : Nat) (passed failed : Int)
    (log : List Visit) {s s2 : State σ} {n n2 : Test} (hload : load s.heap t = some n)
    (hcall : call (code n.func) { s with current_test_failed := 0 } = some s2)
    (hflag : s2.current_test_failed ≠ 0) (hload2 : load s2.heap t = some n2) :
    run_loop code (fuel + 1) t passed failed log s =
      run_loop code fuel n2.next passed (wrap_int (failed + 1)) (log ++ [⟨t, 0, true⟩])
        (emit ("[FAIL] " ++ n2.name ++ "\n") s2) := by
  have ht : t ≠ 0 := (load_eq_some hload).1
  simp only [run_loop, if_neg ht, hload, hcall, hload2]
  simp [hflag]

/-- The state in which a call returns, from the execution of its body. -/
theorem call_of_exec {b : Stmt σ} {s s1 : State σ} {fl : Flow} (h : exec b s = some (fl, s1)) :
    call b s = some s1 := by
  simp [call, h]

/-- C11: `ASSERT_FAIL(msg)` at file `file`, line `line`. From every state and for every
message it prints exactly `[FAIL] <file>:<line>: <msg>`, sets the failure flag and returns
from the test body, so that a statement `rest` placed after it is not executed. When
the loop of `lite_test_run_all` is at a node whose body reaches an `ASSERT_FAIL` (the
statements `pre` before it run through), the iteration counts the test as failed: `failed`
grows by one, `passed` is unchanged and `[FAIL] <name>` is printed. A suite holding the
one test `mark`, `counter = 1; ASSERT_FAIL("stop")`, is run to the end: it prints the
assertion's line, `[FAIL] mark` and `Summary: 0 passed, 1 failed`. -/
theorem ASSERT_FAIL_effect (code : Nat → Stmt σ) (fuel t : Nat) (passed failed : Int)
    (log : List Visit) (s s1 : State σ) (n : Test) (pre post : List (Stmt σ))
    (file : String) (line : Nat) (msg : σ → String)
    (hload : load s.heap t = some n)
    (hbody : code n.func = block (pre ++ ASSERT_FAIL file line msg :: post))
    (hpre : exec (block pre) { s with current_test_failed := 0 } = some (.next, s1))
    (hf : 0 ≤ failed ∧ failed < 2147483647) :
    (∀ (s0 : State σ) (rest : Stmt σ),
      exec (ASSERT_FAIL file line msg) s0 =
        some (.returned,
          { s0 with stdout := s0.stdout ++ ["[FAIL] " ++ file ++ ":" ++ toString line ++
                                ": " ++ msg s0.user ++ "\n"],
                    current_test_failed := 1 }) ∧
      exec (.seq (ASSERT_FAIL file line msg) rest) s0 = exec (ASSERT_FAIL file line msg) s0) ∧
    (∃ s2 n2,
      call (code n.func) { s with current_test_failed := 0 } = some s2 ∧
      s2 = lite_test_fail (emit ("[FAIL] " ++ file ++ ":" ++ toString line ++ ": " ++
        msg s1.user ++ "\n") s1) ∧
      load s2.heap t = some n2 ∧ n2.name = n.name ∧
      run_loop code (fuel + 1) t passed failed log s =
        run_loop code fuel n2.next passed (failed + 1) (log ++ [⟨t, 0, true⟩])
          (emit ("[FAIL] " ++ n.name ++ "\n") s2)) ∧
    (lite_test_run_all sample_code 2 (single_state "mark" 3 0)).map
        (fun r => (r.state.stdout, r.passed, r.failed)) =
      some (["[FAIL] t.c:16: stop\n", "[FAIL] mark\n", "Summary: 0 passed, 1 failed\n"],
        0, 1) := by
  refine ⟨fun s0 rest => ⟨exec_ASSERT_FAIL file line msg s0, ?_⟩, ?_, by decide⟩
  · rw [exec, exec_ASSERT_FAIL file line msg s0]
  · obtain ⟨n1, hn1, hname1, _⟩ := exec_load (block pre) hpre hload
    have hw : wrap_int (failed + 1) = failed + 1 := wrap_int_of_range (by omega) (by omega)
    have hexec : exec (code n.func) { s with current_test_failed := 0 }
        = some (.returned, lite_test_fail (emit (fail_line file line (msg s1.user)) s1)) := by
      rw [hbody, exec_block_append, hpre]
      simp only [block, exec, exec_ASSERT_FAIL file line msg s1]
    have hcall := call_of_exec hexec
    refine ⟨_, n1, hcall, rfl, hn1, hname1, ?_⟩
    have hstep := run_loop_failed_step code fuel t passed failed log hload hcall
      (by simp [lite_test_fail]) (show load _ t = some n1 from hn1)
    rw [hstep, hw, hname1]

/-- Witness for C11: the test `mark` of the first sample, `counter = 1; ASSERT_FAIL("stop")`,
alone in a suite. -/
theorem ASSERT_FAIL_effect_witness :
    ∃ s2 n2,
      call (sample_code 3) { single_state "mark" 3 0 with current_test_failed := 0 }
        = some s2 ∧
      s2 = lite_test_fail (emit ("[FAIL] " ++ "t.c" ++ ":" ++ toString (16 : Nat) ++ ": " ++
        "stop" ++ "\n") ({ single_state "mark" 3 0 with user := 1 } : State Int)) ∧
      load s2.heap 1 = some n2 ∧ n2.name = "mark" ∧
      run_loop sample_code (1 + 1) 1 0 0 [] (single_state "mark" 3 0) =
        run_loop sample_code 1 n2.next 0 (0 + 1) ([] ++ [⟨1, 0, true⟩])
          (emit ("[FAIL] " ++ "mark" ++ "\n") s2) :=
  (ASSERT_FAIL_effect sample_code 1 1 0 0 [] (single_state "mark" 3 0)
    ({ single_state "mark" 3 0 with user := 1 } : State Int) ⟨"mark", 3, 0⟩
    [.user fun _ => some 1] []
    "t.c" 16 (fun _ => "stop") rfl rfl rfl (by decide)).2.1

/-- A call keeps every allocated cell, with its name and function. -/
theorem call_load {b : Stmt σ} {s s1 : State σ} {a : Nat} {n : Test}
    (h : call b s = some s1) (hl : load s.heap a = some n) :
    ∃ n1, load s1.heap a = some n1 ∧ n1.name = n.name ∧ n1.func = n.func := by
  unfold call at h
  cases he : exec b s with
  | none => rw [he] at h; cases h
  | some r =>
    obtain ⟨fl, s2⟩ := r
    rw [he] at h
    simp at h
    subst h
    exact exec_load b he hl

/-- The loop of the runner keeps every allocated cell, with its name and function,
whatever the test bodies do. -/
theorem run_loop_load (code : Nat → Stmt σ) :
    ∀ (fuel t : Nat) (passed failed : Int) (log : List Visit) (s : State σ)
      (r : RunResult σ), run_loop code fuel t passed failed log s = some r →
      ∀ (a : Nat) (n : Test), load s.heap a = some n →
        ∃ n1, load r.state.heap a = some n1 ∧ n1.name = n.name ∧ n1.func = n.func := by
  intro fuel
  induction fuel with
  | zero => intro t passed failed log s r h; simp [run_loop] at h
  | succ fuel ih =>
    intro t passed failed log s r h a n hl
    simp only [run_loop] at h
    split at h
    · simp at h; subst h; exact ⟨n, hl, rfl, rfl⟩
    · cases hn : load s.heap t with
      | none => simp [hn] at h
      | some nt =>
        simp only [hn] at h
        cases hcall : call (code nt.func) { s with current_test_failed := 0 } with
        | none => simp [hcall] at h
        | some s2 =>
          simp only [hcall] at h
          obtain ⟨n1, hn1, hname1, hfunc1⟩ := call_load hcall
            (show load ({ s with current_test_failed := 0 } : State σ).heap a = some n from hl)
          cases hn2 : load s2.heap t with
          | none => simp [hn2] at h
          | some nt2 =>
            simp only [hn2] at h
            split at h
            · obtain ⟨n3, h3, h4, h5⟩ := ih _ _ _ _ _ r h a n1 hn1
              exact ⟨n3, h3, h4.trans hname1, h5.trans hfunc1⟩
            · obtain ⟨n3, h3, h4, h5⟩ := ih _ _ _ _ _ r h a n1 hn1
              exact ⟨n3, h3, h4.trans hname1, h5.trans hfunc1⟩

/-- Counterexample to C12 as stated: the one-entry suite `grow`, whose body calls
`lite_test_register("late", fine)`. Before the run the traversal yields `grow`; after the
run it yields `grow`, `late`. -/
theorem registry_grows_counterexample :
    well_formed (single_state "grow" 1 0) [(1, ⟨"grow", 1, 0⟩)] ∧
    suite_entries (single_state "grow" 1 0) = some [("grow", 1)] ∧
    ∃ r, lite_test_run_all demo_code 3 (single_state "grow" 1 0) = some r ∧
      suite_entries r.state = some [("grow", 1), ("late", 2)] :=
  ⟨⟨by simp [chain, load, single_state], by decide, rfl⟩, by decide, _, rfl, by decide⟩

/-- C12, amended: on a well-formed suite whose test bodies register nothing and return,
`lite_test_run_all` returns and leaves the heap cells and the suite pointers as they were,
so the entry sequence read through `lite_test_get_suite` after the call is the one read
before it. Whatever the test bodies do, a returning run and a registration keep the name
and the function of every cell allocated before. -/
theorem registry_unchanged_by_run (code : Nat → Stmt σ) (fuel : Nat) (s : State σ)
    (c : List (Nat × Test)) (hwf : well_formed s c)
    (hreg : ∀ e ∈ c, registers_nothing (code e.2.func))
    (hret : ∀ e ∈ c, returns (code e.2.func)) (hfuel : c.length < fuel) :
    (∃ r, lite_test_run_all code fuel s = some r ∧
      suite_entries s = some (entries c) ∧ suite_entries r.state = some (entries c) ∧
      r.state.heap = s.heap ∧ lite_test_get_suite r.state = lite_test_get_suite s) ∧
    (∀ (code2 : Nat → Stmt σ) (fuel2 : Nat) (s2 : State σ) (r2 : RunResult σ),
      lite_test_run_all code2 fuel2 s2 = some r2 →
      ∀ (a : Nat) (n : Test), load s2.heap a = some n →
        ∃ n1, load r2.state.heap a = some n1 ∧ n1.name = n.name ∧ n1.func = n.func) ∧
    (∀ (name : String) (func : Nat) (s2 s3 : State σ),
      lite_test_register name func s2 = some s3 →
      ∀ (a : Nat) (n : Test), load s2.heap a = some n →
        ∃ n1, load s3.heap a = some n1 ∧ n1.name = n.name ∧ n1.func = n.func) := by
  refine ⟨?_, ?_, ?_⟩
  · obtain ⟨r, reps, h1, _, _, _, _, h6, h7, _⟩ := run_all_spec code hwf hreg hret hfuel
    have hwf2 : well_formed r.state c := well_formed_congr hwf h6 h7
    exact ⟨r, h1, suite_entries_of_well_formed hwf, suite_entries_of_well_formed hwf2, h6, h7⟩
  · intro code2 fuel2 s2 r2 h a n hl
    unfold lite_test_run_all at h
    cases hr : run_loop code2 fuel2 s2.global_suite.head 0 0 [] s2 with
    | none => rw [hr] at h; cases h
    | some r =>
      rw [hr] at h
      simp at h
      subst h
      exact run_loop_load code2 _ _ _ _ _ _ r hr a n hl
  · intro name func s2 s3 h a n hl
    exact register_load h hl

/-- Witness for the amended C12: the sample suite `bad`, `ok`. -/
theorem registry_unchanged_by_run_witness :
    ∃ r, lite_test_run_all sample_code 3 sample_state = some r ∧
      suite_entries sample_state = some (entries sample_cells) ∧
      suite_entries r.state = some (entries sample_cells) ∧
      r.state.heap = sample_state.heap ∧
      lite_test_get_suite r.state = lite_test_get_suite sample_state :=
  (registry_unchanged_by_run sample_code 3 sample_state sample_cells sample_well_formed
    sample_registers_nothing sample_returns (by decide)).1

/-- Counterexample to C13 as stated: `lite_test_run_all` returns `void` and keeps `passed`
and `failed` in locals. Run on the suite `fresh`, `five` with the counter at `0` and at
`1`, it ends with the counts `2, 0` and `1, 1`, yet leaves the same heap, suite pointers,
flag and client variables: nothing the caller can read after the call holds the pair. -/
theorem no_result_pair_counterexample :
    ∃ r1 r2, lite_test_run_all demo_code 3 (fresh_five_state 0) = some r1 ∧
      lite_test_run_all demo_code 3 (fresh_five_state 1) = some r2 ∧
      r1.state.heap = r2.state.heap ∧ r1.state.global_suite = r2.state.global_suite ∧
      r1.state.current_test_failed = r2.state.current_test_failed ∧
      r1.state.user = r2.state.user ∧
      r1.passed = 2 ∧ r1.failed = 0 ∧ r2.passed = 1 ∧ r2.failed = 1 ∧
      r1.state.stdout.getLast? = some "Summary: 2 passed, 0 failed\n" ∧
      r2.state.stdout.getLast? = some "Summary: 1 passed, 1 failed\n" :=
  ⟨_, _, rfl, rfl, by decide, by decide, by decide, by decide, by decide, by decide,
    by decide, by decide, by decide, by decide⟩

/-- C13, amended: on a well-formed suite with fewer than `2^31` cells whose bodies register
nothing and return, a call of `lite_test_run_all` produces console output only. The
numbers of tests classified passed and failed are the two numbers of the summary line,
which is the last text written; the heap and the suite pointers are as before the call. -/
theorem summary_line_is_the_result (code : Nat → Stmt σ) (fuel : Nat) (s : State σ)
    (c : List (Nat × Test)) (hwf : well_formed s c)
    (hreg : ∀ e ∈ c, registers_nothing (code e.2.func))
    (hret : ∀ e ∈ c, returns (code e.2.func)) (hfuel : c.length < fuel)
    (hint : c.length < 2147483648) :
    ∃ r reps, lite_test_run_all code fuel s = some r ∧
      test_reports code (entries c) s = some reps ∧
      r.log.map Visit.failed = reps.map TestReport.failed ∧
      r.state.stdout.getLast? = some (summary_line (reps.countP fun r => !r.failed)
        (reps.countP fun r => r.failed)) ∧
      r.state.heap = s.heap ∧ r.state.global_suite = s.global_suite := by
  obtain ⟨r, reps, h1, h2, h3, h4, h5, h6, h7, h8⟩ := run_all_spec code hwf hreg hret hfuel
  obtain ⟨hp, hf⟩ := h8 hint
  refine ⟨r, reps, h1, h2, ?_, ?_, h6, h7⟩
  · rw [h4]; exact map_failed_zipWith c reps h3
  · rw [h5, hp, hf, fmt_d_natCast, fmt_d_natCast]
    simp [summary_line]

/-- Witness for the amended C13: the sample suite `bad`, `ok`. -/
theorem summary_line_is_the_result_witness :
    ∃ r reps, lite_test_run_all sample_code 3 sample_state = some r ∧
      test_reports sample_code (entries sample_cells) sample_state = some reps ∧
      r.log.map Visit.failed = reps.map TestReport.failed ∧
      r.state.stdout.getLast? = some (summary_line (reps.countP fun r => !r.failed)
        (reps.countP fun r => r.failed)) ∧
      r.state.heap = sample_state.heap ∧ r.state.global_suite = sample_state.global_suite :=
  summary_line_is_the_result sample_code 3 sample_state sample_cells sample_well_formed
    sample_registers_nothing sample_returns (by decide) (by decide)

/-- A `[PASS]` line is never a `[FAIL]` line. -/
theorem pass_line_ne_fail_line (x y : String) : "[PASS] " ++ x ≠ "[FAIL] " ++ y := by
  intro h
  have hd := congrArg String.data h
  rw [String.data_append, String.data_append] at hd
  have h1 : "[PASS] ".data = ['[', 'P', 'A', 'S', 'S', ']', ' '] := rfl
  have h2 : "[FAIL] ".data = ['[', 'F', 'A', 'I', 'L', ']', ' '] := rfl
  rw [h1, h2] at hd
  simp at hd

/-- The verdict line of a report is its `[FAIL]` line exactly when the test failed. -/
theorem verdict_line_fail_iff (r : TestReport) :
    verdict_line r = "[FAIL] " ++ r.name ++ "\n" ↔ r.failed = true := by
  unfold verdict_line
  cases hr : r.failed
  · simp only [Bool.false_eq_true, if_false, iff_false]
    rw [String.append_assoc, String.append_assoc]
    exact pass_line_ne_fail_line _ _
  · simp

/-- The verdict line of a report is its `[PASS]` line exactly when the test passed. -/
theorem verdict_line_pass_iff (r : TestReport) :
    verdict_line r = "[PASS] " ++ r.name ++ "\n" ↔ r.failed = false := by
  unfold verdict_line
  cases hr : r.failed
  · simp
  · simp only [if_true, Bool.true_eq_false, iff_false]
    rw [String.append_assoc, String.append_assoc]
    exact fun h => pass_line_ne_fail_line _ _ h.symm

/-- C14: on a well-formed suite of `N` cells, `N` below `2^31`, whose test bodies register
nothing and return, the two numbers of the summary line add up to `N`, and the runner
prints exactly `N` outcome lines, one after the texts of each body: `failed` of them are
`[FAIL] <name>` lines and `passed` of them are `[PASS] <name>` lines. -/
theorem counts_add_up_to_entries (code : Nat → Stmt σ) (fuel : Nat) (s : State σ)
    (c : List (Nat × Test)) (hwf : well_formed s c)
    (hreg : ∀ e ∈ c, registers_nothing (code e.2.func))
    (hret : ∀ e ∈ c, returns (code e.2.func)) (hfuel : c.length < fuel)
    (hint : c.length < 2147483648) :
    ∃ (r : RunResult σ) (reps : List TestReport), lite_test_run_all code fuel s = some r ∧
      test_reports code (entries c) s = some reps ∧
      r.passed + r.failed = c.length ∧
      r.state.stdout.getLast? =
        some ("Summary: " ++ fmt_d r.passed ++ " passed, " ++ fmt_d r.failed ++ " failed\n") ∧
      r.state.stdout =
        s.stdout ++ (reps.map fun r => r.body_lines ++ [verdict_line r]).flatten ++
          ["Summary: " ++ fmt_d r.passed ++ " passed, " ++ fmt_d r.failed ++ " failed\n"] ∧
      (reps.map verdict_line).length = c.length ∧
      r.failed = reps.countP (fun r => decide (verdict_line r = "[FAIL] " ++ r.name ++ "\n")) ∧
      r.passed = reps.countP (fun r => decide (verdict_line r = "[PASS] " ++ r.name ++ "\n")) := by
  obtain ⟨r, reps, h1, h2, h3, _, h5, _, _, h8⟩ := run_all_spec code hwf hreg hret hfuel
  obtain ⟨hp, hf⟩ := h8 hint
  refine ⟨r, reps, h1, h2, ?_, ?_, h5, by simp [h3], ?_, ?_⟩
  · rw [hp, hf, ← h3]
    exact_mod_cast count_passed_add_failed reps
  · rw [h5]; simp
  · rw [hf]
    congr 1
    apply List.countP_congr
    intro x _
    simp [verdict_line_fail_iff]
  · rw [hp]
    congr 1
    apply List.countP_congr
    intro x _
    simp [verdict_line_pass_iff]

/-- Witness for C14: the sample suite `bad`, `ok`. -/
theorem counts_add_up_to_entries_witness :
    ∃ (r : RunResult Int) (reps : List TestReport),
      lite_test_run_all sample_code 3 sample_state = some r ∧
      test_reports sample_code (entries sample_cells) sample_state = some reps ∧
      r.passed + r.failed = sample_cells.length ∧
      r.state.stdout.getLast? =
        some ("Summary: " ++ fmt_d r.passed ++ " passed, " ++ fmt_d r.failed ++ " failed\n") ∧
      r.state.stdout =
        sample_state.stdout ++ (reps.map fun r => r.body_lines ++ [verdict_line r]).flatten ++
          ["Summary: " ++ fmt_d r.passed ++ " passed, " ++ fmt_d r.failed ++ " failed\n"] ∧
      (reps.map verdict_line).length = sample_cells.length ∧
      r.failed = reps.countP (fun r => decide (verdict_line r = "[FAIL] " ++ r.name ++ "\n")) ∧
      r.passed = reps.countP (fun r => decide (verdict_line r = "[PASS] " ++ r.name ++ "\n")) :=
  counts_add_up_to_entries sample_code 3 sample_state sample_cells sample_well_formed
    sample_registers_nothing sample_returns (by decide) (by decide)

/-- No statement clears a flag that is set. -/
theorem exec_flag_sticky :
    ∀ (b : Stmt σ) {s s1 : State σ} {fl : Flow}, exec b s = some (fl, s1) →
      s.current_test_failed ≠ 0 → s1.current_test_failed ≠ 0 := by
  intro b
  induction b with
  | skip => intro s s1 fl h hs; simp [exec] at h; rw [← h.2]; exact hs
  | seq a b iha ihb =>
    intro s s1 fl h hs
    simp only [exec] at h
    cases ha : exec a s with
    | none => rw [ha] at h; cases h
    | some r =>
      obtain ⟨fa, sa⟩ := r
      rw [ha] at h
      have h1 := iha ha hs
      cases fa with
      | returned =>
        simp at h
        rw [← h.2]; exact h1
      | next => exact ihb h h1
  | if_then c a ih =>
    intro s s1 fl h hs
    simp only [exec] at h
    split at h
    · simp at h; rw [← h.2]; exact hs
    · exact ih h hs
  | do_while0 a ih =>
    intro s s1 fl h hs
    exact ih h hs
  | user f =>
    intro s s1 fl h hs
    simp only [exec] at h
    split at h
    · cases h
    · simp at h; rw [← h.2]; exact hs
  | printf text => intro s s1 fl h hs; simp [exec] at h; rw [← h.2]; exact hs
  | call_fail =>
    intro s s1 fl h _
    simp [exec] at h
    rw [← h.2]
    simp [lite_test_fail]
  | call_register name func =>
    intro s s1 fl h hs
    simp only [exec] at h
    cases hr : lite_test_register name func s with
    | none => rw [hr] at h; cases h
    | some s2 =>
      rw [hr] at h
      simp at h
      rw [← h.2, (register_frame hr).1]
      exact hs
  | ret => intro s s1 fl h hs; simp [exec] at h; rw [← h.2]; exact hs

/-- C15: `lite_test_fail` sets the flag to `1`, and calling it twice is calling it once;
`lite_test_register` and `lite_test_get_suite` leave the flag alone, and no statement of a
test body brings a set flag back to `0`. So when the loop of `lite_test_run_all` is at a
node whose body calls `lite_test_fail()` (the statements `pre` before the call run
through) and then goes on with statements `post` that return, passing assertions
included, the flag is still set when the body returns and the iteration counts the test
as failed. A suite holding the one test `sticky`, `lite_test_fail(); ASSERT_TRUE(1 == 1);`,
is run to the end: it prints `[FAIL] sticky` and `Summary: 0 passed, 1 failed`. -/
theorem flag_is_sticky (code : Nat → Stmt σ) (fuel t : Nat) (passed failed : Int)
    (log : List Visit) (s s1 s2 : State σ) (n : Test) (pre post : List (Stmt σ))
    (hload : load s.heap t = some n)
    (hbody : code n.func = block (pre ++ Stmt.call_fail :: post))
    (hpre : exec (block pre) { s with current_test_failed := 0 } = some (.next, s1))
    (hpost : call (block post) (lite_test_fail s1) = some s2)
    (hf : 0 ≤ failed ∧ failed < 2147483647) :
    (∀ s0 : State σ, (lite_test_fail s0).current_test_failed = 1 ∧
      lite_test_fail (lite_test_fail s0) = lite_test_fail s0 ∧
      apply_ops [Op.get_suite] s0 = some s0) ∧
    (∀ (name : String) (func : Nat) (s0 s3 : State σ),
      lite_test_register name func s0 = some s3 →
      s3.current_test_failed = s0.current_test_failed) ∧
    (∀ (b : Stmt σ) (s0 s3 : State σ) (fl : Flow), exec b s0 = some (fl, s3) →
      s0.current_test_failed ≠ 0 → s3.current_test_failed ≠ 0) ∧
    (∃ n2, call (code n.func) { s with current_test_failed := 0 } = some s2 ∧
      s2.current_test_failed ≠ 0 ∧ load s2.heap t = some n2 ∧ n2.name = n.name ∧
      run_loop code (fuel + 1) t passed failed log s =
        run_loop code fuel n2.next passed (failed + 1) (log ++ [⟨t, 0, true⟩])
          (emit ("[FAIL] " ++ n.name ++ "\n") s2)) ∧
    (lite_test_run_all demo_code 2 (single_state "sticky" 3 0)).map
        (fun r => (r.state.stdout, r.passed, r.failed)) =
      some (["[FAIL] sticky\n", "Summary: 0 passed, 1 failed\n"], 0, 1) := by
  refine ⟨fun s0 => ⟨rfl, rfl, rfl⟩, fun name func s0 s3 h => (register_frame h).1,
    fun b s0 s3 fl h hs => exec_flag_sticky b h hs, ?_, by decide⟩
  have hw : wrap_int (failed + 1) = failed + 1 := wrap_int_of_range (by omega) (by omega)
  have hcall : call (code n.func) { s with current_test_failed := 0 } = some s2 := by
    unfold call at hpost ⊢
    rw [hbody, exec_block_append, hpre]
    simp only [block, exec]
    exact hpost
  have hflag : s2.current_test_failed ≠ 0 := by
    unfold call at hpost
    cases he : exec (block post) (lite_test_fail s1) with
    | none => rw [he] at hpost; cases hpost
    | some r =>
      obtain ⟨fl, s3⟩ := r
      rw [he] at hpost
      simp at hpost
      subst hpost
      exact exec_flag_sticky _ he (by simp [lite_test_fail])
  obtain ⟨n2, hn2, hname, _⟩ := call_load hcall
    (show load ({ s with current_test_failed := 0 } : State σ).heap t = some n from hload)
  refine ⟨n2, hcall, hflag, hn2, hname, ?_⟩
  rw [run_loop_failed_step code fuel t passed failed log hload hcall hflag hn2, hw, hname]

/-- Witness for C15: the test `sticky` of the second sample,
`lite_test_fail(); ASSERT_TRUE(1 == 1);`, alone in a suite. -/
theorem flag_is_sticky_witness :
    ∃ n2, call (demo_code 3) { single_state "sticky" 3 0 with current_test_failed := 0 }
        = some (lite_test_fail (single_state "sticky" 3 0)) ∧
      (lite_test_fail (single_state "sticky" 3 0)).current_test_failed ≠ 0 ∧
      load (lite_test_fail (single_state "sticky" 3 0)).heap 1 = some n2 ∧
      n2.name = "sticky" ∧
      run_loop demo_code (1 + 1) 1 0 0 [] (single_state "sticky" 3 0) =
        run_loop demo_code 1 n2.next 0 (0 + 1) ([] ++ [⟨1, 0, true⟩])
          (emit ("[FAIL] " ++ "sticky" ++ "\n") (lite_test_fail (single_state "sticky" 3 0))) :=
  (flag_is_sticky demo_code 1 1 0 0 [] (single_state "sticky" 3 0) (single_state "sticky" 3 0)
    (lite_test_fail (single_state "sticky" 3 0)) ⟨"sticky", 3, 0⟩ []
    [ASSERT_TRUE "d.c" 11 "1 == 1" (fun _ => c_eq 1 1)] rfl rfl rfl
    (by simp [call, block, exec, ASSERT_TRUE, c_eq, c_not]) (by decide)).2.2.2.1

/-- C16: on the empty registry of program start (`head` and `tail` are `NULL`), whatever
the flag holds and whatever has been printed before, `lite_test_run_all` returns after
one evaluation of the loop condition: it calls no function (the log is empty), leaves the
flag, the suite and the client variables as they are, and appends exactly one text,
`Summary: 0 passed, 0 failed`. -/
theorem run_all_on_empty_registry (code : Nat → Stmt σ) (fuel : Nat) (u : σ) (flag : Int)
    (out : List String) :
    lite_test_run_all code (fuel + 1)
        { State.init u with current_test_failed := flag, stdout := out } =
      some { state := { State.init u with
                          current_test_failed := flag,
                          stdout := out ++ ["Summary: 0 passed, 0 failed\n"] },
             passed := 0, failed := 0, log := [] } := by
  simp only [lite_test_run_all, State.init, run_loop, if_true, print_summary, emit]
  rfl

/-- With fuel for at most as many evaluations of the loop condition as the chain has
cells, the loop has not reached `NULL` yet. -/
theorem run_loop_none_of_fuel_le (code : Nat → Stmt σ) :
    ∀ (c : List (Nat × Test)) (fuel p : Nat) (passed failed : Int) (log : List Visit)
      (s : State σ), chain s.heap p c → (∀ e ∈ c, registers_nothing (code e.2.func)) →
      fuel ≤ c.length → run_loop code fuel p passed failed log s = none := by
  intro c
  induction c with
  | nil =>
    intro fuel p passed failed log s _ _ hf
    have h0 : fuel = 0 := by simpa using hf
    subst h0
    rfl
  | cons e rest ih =>
    intro fuel p passed failed log s hc hr hf
    cases fuel with
    | zero => rfl
    | succ fuel =>
      have hp : p ≠ 0 := chain_head_ne_zero hc (by simp)
      have hl : load s.heap p = some e.2 := hc.1 ▸ hc.2.1
      simp only [run_loop, if_neg hp, hl]
      cases hcall : call (code e.2.func) { s with current_test_failed := 0 } with
      | none => rfl
      | some s2 =>
        have hfr := call_frame (hr e (by simp)) hcall
        have hh : s2.heap = s.heap := hfr.1
        have hl2 : load s2.heap p = some e.2 := by rw [hh]; exact hl
        simp only [hl2]
        have hlen : fuel ≤ rest.length := by simpa using hf
        have hrest : ∀ e ∈ rest, registers_nothing (code e.2.func) :=
          fun e0 he0 => hr e0 (List.mem_cons_of_mem _ he0)
        have hch : ∀ text, chain (emit text s2).heap e.2.next rest := by
          intro text
          show chain s2.heap _ _
          rw [hh]; exact hc.2.2
        by_cases hflag : s2.current_test_failed = 0
        · simp only [hflag, ne_eq, not_true_eq_false, if_false]
          exact ih fuel e.2.next _ _ _ _ (hch _) hrest hlen
        · simp only [hflag, ne_eq, not_false_eq_true, if_true]
          exact ih fuel e.2.next _ _ _ _ (hch _) hrest hlen

/-- C17: let the suite be built from the empty one by the registrations `rs`, and let
every registered body return and register nothing. Then the `next`-chain from `head` is
finite: it has one cell per registration and ends in `NULL`. The loop of
`lite_test_run_all` performs exactly `N` iterations for the `N` entries: with fuel for
more than `N` evaluations of the loop condition the run returns with `N` logged
iterations, and with fuel for `N` or fewer it has not finished. -/
theorem run_all_terminates (code : Nat → Stmt σ) (rs : List (String × Nat)) (u : σ)
    (hreg : ∀ r ∈ rs, registers_nothing (code r.2))
    (hret : ∀ r ∈ rs, returns (code r.2)) :
    ∃ s c, register_all rs (State.init u) = some s ∧ well_formed s c ∧
      entries c = rs ∧ c.length = rs.length ∧
      (∀ fuel, rs.length < fuel →
        ∃ r, lite_test_run_all code fuel s = some r ∧ r.log.length = rs.length) ∧
      (∀ fuel, fuel ≤ rs.length → lite_test_run_all code fuel s = none) := by
  obtain ⟨s, c, h1, h2, h3⟩ :=
    register_all_well_formed rs (State.init u) [] (init_well_formed u)
  have he : entries c = rs := by rw [h3]; simp [entries]
  have hlen : c.length = rs.length := by rw [← he]; simp [entries]
  have hreg2 : ∀ e ∈ c, registers_nothing (code e.2.func) := by
    intro e hmem
    have : (e.2.name, e.2.func) ∈ rs := by
      rw [← he]
      exact List.mem_map.2 ⟨e, hmem, rfl⟩
    exact hreg _ this
  have hret2 : ∀ e ∈ c, returns (code e.2.func) := by
    intro e hmem
    have : (e.2.name, e.2.func) ∈ rs := by
      rw [← he]
      exact List.mem_map.2 ⟨e, hmem, rfl⟩
    exact hret _ this
  refine ⟨s, c, h1, h2, he, hlen, ?_, ?_⟩
  · intro fuel hf
    obtain ⟨r, reps, g1, _, g3, g4, _⟩ :=
      run_all_spec code h2 hreg2 hret2 (by rw [hlen]; exact hf)
    refine ⟨r, g1, ?_⟩
    rw [g4]
    simp [g3, hlen]
  · intro fuel hf
    unfold lite_test_run_all
    rw [run_loop_none_of_fuel_le code c fuel _ 0 0 [] s h2.is_chain hreg2 (by rw [hlen]; exact hf)]

/-- Witness for C17: the registrations `bad`, `ok` of the first sample. -/
theorem run_all_terminates_witness :
    ∃ s c, register_all [("bad", 1), ("ok", 2)] (State.init (0 : Int)) = some s ∧
      well_formed s c ∧
      entries c = [("bad", 1), ("ok", 2)] ∧ c.length = [("bad", 1), ("ok", 2)].length ∧
      (∀ fuel, [("bad", 1), ("ok", 2)].length < fuel →
        ∃ r, lite_test_run_all sample_code fuel s = some r ∧
          r.log.length = [("bad", 1), ("ok", 2)].length) ∧
      (∀ fuel, fuel ≤ [("bad", 1), ("ok", 2)].length →
        lite_test_run_all sample_code fuel s = none) :=
  run_all_terminates sample_code [("bad", 1), ("ok", 2)] 0
    (by
      intro r hr
      simp only [List.mem_cons, List.mem_singleton, List.not_mem_nil, or_false] at hr
      rcases hr with rfl | rfl <;>
        simp [sample_code, block, registers_nothing, ASSERT_TRUE, ASSERT_EQ])
    (by
      intro r hr
      simp only [List.mem_cons, List.mem_singleton, List.not_mem_nil, or_false] at hr
      rcases hr with rfl | rfl <;>
        simp [sample_code, block, returns, ASSERT_TRUE, ASSERT_EQ])

/-- The last cell of a chain points to `NULL`. -/
theorem chain_last_next {heap : List Test} (q : Nat) (nq : Test) :
    ∀ {c0 : List (Nat × Test)} {p : Nat}, chain heap p (c0 ++ [(q, nq)]) → nq.next = 0 := by
  intro c0
  induction c0 with
  | nil => intro p h; exact h.2.2
  | cons e rest ih => intro p h; exact ih h.2.2

/-- Calls of `lite_test_register`, `lite_test_fail` and `lite_test_get_suite` keep the
suite well formed and append the registered entries in call order. -/
theorem apply_ops_well_formed :
    ∀ (ops : List Op) (s : State σ) (c : List (Nat × Test)), well_formed s c →
      ∃ s1 c1, apply_ops ops s = some s1 ∧ well_formed s1 c1 ∧
        entries c1 = entries c ++ registrations ops := by
  intro ops
  induction ops with
  | nil => intro s c h; exact ⟨s, c, rfl, h, by simp [registrations]⟩
  | cons op rest ih =>
    intro s c h
    cases op with
    | register name func =>
      obtain ⟨s1, c1, h1, h2, h3, _⟩ := register_well_formed h name func
      obtain ⟨s2, c2, h4, h5, h6⟩ := ih s1 c1 h2
      refine ⟨s2, c2, ?_, h5, ?_⟩
      · simp only [apply_ops, h1]
        exact h4
      · rw [h6, h3]
        simp [registrations]
    | fail =>
      obtain ⟨s2, c2, h4, h5, h6⟩ := ih (lite_test_fail s) c (well_formed_congr h rfl rfl)
      exact ⟨s2, c2, h4, h5, by rw [h6]; simp [registrations]⟩
    | get_suite =>
      obtain ⟨s2, c2, h4, h5, h6⟩ := ih s c h
      exact ⟨s2, c2, h4, h5, by rw [h6]; simp [registrations]⟩

/-- C18: every state reached from program start by calls of `lite_test_register`,
`lite_test_fail` and `lite_test_get_suite` has a well-formed suite. `head` is `NULL`
exactly when `tail` is `NULL`; when `tail` is not `NULL` it is the last cell of the chain
from `head` and its `next` is `NULL`; the chain visits no cell twice, ends in `NULL`, holds
the registered entries in call order, and has as many cells as there were calls of
`lite_test_register`. -/
theorem suite_stays_well_formed (ops : List Op) (u : σ) :
    ∃ s c, apply_ops ops (State.init u) = some s ∧ well_formed s c ∧
      entries c = registrations ops ∧ c.length = (registrations ops).length ∧
      (s.global_suite.head = 0 ↔ s.global_suite.tail = 0) ∧
      (s.global_suite.tail ≠ 0 →
        (addrs c).getLast? = some s.global_suite.tail ∧
        ∃ n, load s.heap s.global_suite.tail = some n ∧ n.next = 0) ∧
      (addrs c).Nodup ∧
      walk s.heap s.heap.length s.global_suite.head = some (c.map Prod.snd) := by
  obtain ⟨s, c, h1, h2, h3⟩ := apply_ops_well_formed ops (State.init u) [] (init_well_formed u)
  have he : entries c = registrations ops := by rw [h3]; simp [entries]
  have hlen : c.length = (registrations ops).length := by rw [← he]; simp [entries]
  have hwalk := walk_of_chain s.heap.length h2.is_chain (chain_length_le h2.is_chain h2.nodup)
  refine ⟨s, c, h1, h2, he, hlen, ?_, ?_, h2.nodup, hwalk⟩
  · rcases List.eq_nil_or_concat c with hc | ⟨c0, e, hc⟩
    · subst hc
      have hh : s.global_suite.head = 0 := h2.is_chain
      have ht : s.global_suite.tail = 0 := by rw [h2.tail_last]; simp [addrs]
      simp [hh, ht]
    · rw [List.concat_eq_append] at hc
      subst hc
      have hh : s.global_suite.head ≠ 0 := chain_head_ne_zero h2.is_chain (by simp)
      have ht : s.global_suite.tail = e.1 := by rw [h2.tail_last]; simp [addrs]
      have hv := (chain_addr_valid h2.is_chain e.1 (by simp [addrs])).1
      simp [hh, ht, hv]
  · intro htail
    rcases List.eq_nil_or_concat c with hc | ⟨c0, e, hc⟩
    · subst hc
      exact absurd (by rw [h2.tail_last]; simp [addrs]) htail
    · rw [List.concat_eq_append] at hc
      subst hc
      obtain ⟨q, nq⟩ := e
      have ht : s.global_suite.tail = q := by rw [h2.tail_last]; simp [addrs]
      refine ⟨by rw [ht]; simp [addrs], nq, ?_, chain_last_next q nq h2.is_chain⟩
      rw [ht]
      exact chain_mem_load h2.is_chain (q, nq) (by simp)

/-! ## A test at a given position of the run -/

/-- A body that arrives at a first failing assertion returns there: its final state is
the state at the assertion plus the assertion's line and the flag. -/
theorem exec_of_reaches_failing_assertion {b : Stmt σ} {s s1 : State σ}
    (h : reaches_failing_assertion b s s1) :
    ∃ text, exec b s = some (.returned, lite_test_fail (emit text s1)) := by
  induction h with
  | assert_true b file line text cond s hb hc =>
    subst hb
    exact ⟨_, exec_ASSERT_TRUE_false file line text cond s hc⟩
  | assert_fail b file line msg s hb =>
    subst hb
    exact ⟨_, exec_ASSERT_FAIL file line msg s⟩
  | seq_first a b s s1 _ ih =>
    obtain ⟨text, ht⟩ := ih
    exact ⟨text, by simp [exec, ht]⟩
  | seq_second a b s s2 s1 ha _ ih =>
    obtain ⟨text, ht⟩ := ih
    exact ⟨text, by simp [exec, ha, ht]⟩
  | if_then c a s s1 hc _ ih =>
    obtain ⟨text, ht⟩ := ih
    exact ⟨text, by simp [exec, hc, ht]⟩
  | do_while0 a s s1 _ ih =>
    obtain ⟨text, ht⟩ := ih
    exact ⟨text, by simp [exec, ht]⟩

/-- A body that arrives at a failing assertion reaches a call of `lite_test_fail`. -/
theorem calls_fail_of_reaches_failing_assertion {b : Stmt σ} {s s1 : State σ}
    (h : reaches_failing_assertion b s s1) : calls_fail b s := by
  induction h with
  | assert_true b file line text cond s hb hc =>
    subst hb
    exact (calls_fail_ASSERT_TRUE file line text cond s).2 hc
  | assert_fail b file line msg s hb =>
    subst hb
    exact calls_fail_ASSERT_FAIL file line msg s
  | seq_first a b s s1 _ ih => exact Or.inl ih
  | seq_second a b s s2 s1 ha _ ih => exact Or.inr ⟨s2, ha, ih⟩
  | if_then c a s s1 hc _ ih => exact ⟨hc, ih⟩
  | do_while0 a s s1 _ ih => exact ih

/-- The iterations for a list of cells are those for its first part followed by those
for the rest, started with the counters, log and state the first part ended with. -/
theorem run_entries_append (code : Nat → Stmt σ) :
    ∀ (c1 c2 : List (Nat × Test)) (passed failed : Int) (log : List Visit) (s : State σ),
      run_entries code (c1 ++ c2) passed failed log s =
        match run_entries code c1 passed failed log s with
        | none => none
        | some r => run_entries code c2 r.passed r.failed r.log r.state := by
  intro c1
  induction c1 with
  | nil => intro c2 passed failed log s; simp [run_entries]
  | cons e rest ih =>
    intro c2 passed failed log s
    simp only [List.cons_append, run_entries]
    cases hcall : call (code e.2.func) { s with current_test_failed := 0 } with
    | none => rfl
    | some s2 =>
      by_cases hflag : s2.current_test_failed = 0
      · simp only [hflag, ne_eq, not_true_eq_false, if_false]
        exact ih c2 _ _ _ _
      · simp only [hflag, ne_eq, not_false_eq_true, if_true]
        exact ih c2 _ _ _ _

/-- The reports of a list of cells split at any point: the reports of the first part,
then those of the rest started in the state the loop has after the first part. -/
theorem test_reports_split (code : Nat → Stmt σ) :
    ∀ (c1 c2 : List (Nat × Test)) (passed failed : Int) (log : List Visit) (s : State σ)
      (r1 : RunResult σ) (reps : List TestReport),
      run_entries code c1 passed failed log s = some r1 →
      test_reports code (entries (c1 ++ c2)) s = some reps →
      ∃ reps1 reps2, reps = reps1 ++ reps2 ∧ reps1.length = c1.length ∧
        test_reports code (entries c2) r1.state = some reps2 := by
  intro c1
  induction c1 with
  | nil =>
    intro c2 passed failed log s r1 reps h1 h2
    simp [run_entries] at h1
    subst h1
    exact ⟨[], reps, rfl, rfl, h2⟩
  | cons e rest ih =>
    intro c2 passed failed log s r1 reps h1 h2
    have hent : entries (e :: rest ++ c2) = (e.2.name, e.2.func) :: entries (rest ++ c2) := rfl
    rw [hent] at h2
    simp only [test_reports] at h2
    simp only [run_entries] at h1
    cases hcall : call (code e.2.func) { s with current_test_failed := 0 } with
    | none => rw [hcall] at h1; cases h1
    | some s2 =>
      rw [hcall] at h1 h2
      dsimp only at h1 h2
      cases hrest : test_reports code (entries (rest ++ c2))
          (emit (verdict_line ⟨e.2.name, s2.stdout.drop s.stdout.length,
            decide (s2.current_test_failed ≠ 0)⟩) s2) with
      | none => rw [hrest] at h2; cases h2
      | some q =>
        rw [hrest] at h2
        simp only [Option.some.injEq] at h2
        subst h2
        by_cases hflag : s2.current_test_failed = 0
        · simp only [hflag, ne_eq, not_true_eq_false, if_false] at h1
          have hq : test_reports code (entries (rest ++ c2))
              (emit ("[PASS] " ++ e.2.name ++ "\n") s2) = some q := by
            simpa [verdict_line, hflag] using hrest
          obtain ⟨reps1, reps2, g1, g2, g3⟩ := ih c2 _ _ _ _ r1 q h1 hq
          exact ⟨_ :: reps1, reps2, by rw [g1]; rfl, by simp [g2], g3⟩
        · simp only [hflag, ne_eq, not_false_eq_true, if_true] at h1
          have hq : test_reports code (entries (rest ++ c2))
              (emit ("[FAIL] " ++ e.2.name ++ "\n") s2) = some q := by
            simpa [verdict_line, hflag] using hrest
          obtain ⟨reps1, reps2, g1, g2, g3⟩ := ih c2 _ _ _ _ r1 q h1 hq
          exact ⟨_ :: reps1, reps2, by rw [g1]; rfl, by simp [g2], g3⟩
/-- The test at a given position of a run. Let the suite consist of the cells `c1`, then
`e`, then `c2`, let `r1` be what the loop has after the iterations for `c1`, and let the
body of `e`, called there with the flag cleared, return in state `s2`. Then the whole run
returns; its report and log at the position of `e` record the name of `e`, what the body
printed and whether `s2` has the flag set; and after the iteration for `e` the loop has
`failed + 1` or `passed + 1`, the other counter unchanged, and the verdict line printed. -/
theorem run_at_position (code : Nat → Stmt σ) {fuel : Nat} {s s2 : State σ}
    {c1 c2 : List (Nat × Test)} {e : Nat × Test} {r1 : RunResult σ}
    (hwf : well_formed s (c1 ++ e :: c2))
    (hreg : ∀ x ∈ c1 ++ e :: c2, registers_nothing (code x.2.func))
    (hret : ∀ x ∈ c1 ++ e :: c2, returns (code x.2.func))
    (hfuel : (c1 ++ e :: c2).length < fuel) (hint : (c1 ++ e :: c2).length < 2147483648)
    (hbefore : run_entries code c1 0 0 [] s = some r1)
    (hcall : call (code e.2.func) { r1.state with current_test_failed := 0 } = some s2) :
    ∃ (r : RunResult σ) (reps : List TestReport),
      lite_test_run_all code fuel s = some r ∧
      test_reports code (entries (c1 ++ e :: c2)) s = some reps ∧
      reps[c1.length]? = some ⟨e.2.name, s2.stdout.drop r1.state.stdout.length,
        decide (s2.current_test_failed ≠ 0)⟩ ∧
      r.log[c1.length]? = some ⟨e.1, 0, decide (s2.current_test_failed ≠ 0)⟩ ∧
      r.passed = reps.countP (fun r => !r.failed) ∧
      r.failed = reps.countP (fun r => r.failed) ∧
      r.state.stdout = s.stdout ++ report_lines reps ∧
      run_entries code (c1 ++ [e]) 0 0 [] s =
        some (if s2.current_test_failed ≠ 0 then
          { state := emit ("[FAIL] " ++ e.2.name ++ "\n") s2, passed := r1.passed,
            failed := r1.failed + 1, log := r1.log ++ [⟨e.1, 0, true⟩] }
        else
          { state := emit ("[PASS] " ++ e.2.name ++ "\n") s2, passed := r1.passed + 1,
            failed := r1.failed, log := r1.log ++ [⟨e.1, 0, false⟩] }) := by
  obtain ⟨r, reps, h1, h2, h3, h4, h5, _, _, h8⟩ := run_all_spec code hwf hreg hret hfuel
  obtain ⟨hp, hf⟩ := h8 hint
  obtain ⟨reps1, reps2, g1, g2, g3⟩ :=
    test_reports_split code c1 (e :: c2) 0 0 [] s r1 reps hbefore h2
  have hent : entries (e :: c2) = (e.2.name, e.2.func) :: entries c2 := rfl
  rw [hent] at g3
  simp only [test_reports, hcall] at g3
  cases hq : test_reports code (entries c2)
      (emit (verdict_line ⟨e.2.name, s2.stdout.drop r1.state.stdout.length,
        decide (s2.current_test_failed ≠ 0)⟩) s2) with
  | none => rw [hq] at g3; cases g3
  | some q =>
    rw [hq] at g3
    simp only [Option.some.injEq] at g3
    have hrep : reps[c1.length]? = some ⟨e.2.name, s2.stdout.drop r1.state.stdout.length,
        decide (s2.current_test_failed ≠ 0)⟩ := by
      rw [g1, ← g3, List.getElem?_append_right (by omega), g2]
      simp
    have hcell : (c1 ++ e :: c2)[c1.length]? = some e := by
      rw [List.getElem?_append_right (le_refl _)]
      simp
    -- the counters after the cells before `e`
    obtain ⟨r0, reps0, k1, _, k3, _, _, _, _, k8⟩ := run_entries_spec code c1 0 0 [] s
      (fun x hx => hreg x (List.mem_append_left _ hx))
      (fun x hx => hret x (List.mem_append_left _ hx))
    rw [hbefore] at k1
    cases k1
    have hlen : (c1.length : Int) + 1 < 2147483648 := by
      have : c1.length + 1 ≤ (c1 ++ e :: c2).length := by simp
      omega
    obtain ⟨kp, kf⟩ := k8 (le_refl 0) (le_refl 0) (by omega)
    have hcp : reps0.countP (fun r => !r.failed) ≤ c1.length := by
      rw [← k3]; exact List.countP_le_length _
    have hcf : reps0.countP (fun r => r.failed) ≤ c1.length := by
      rw [← k3]; exact List.countP_le_length _
    have hwp : wrap_int (r1.passed + 1) = r1.passed + 1 :=
      wrap_int_of_range (by omega) (by omega)
    have hwf1 : wrap_int (r1.failed + 1) = r1.failed + 1 :=
      wrap_int_of_range (by omega) (by omega)
    refine ⟨r, reps, h1, h2, hrep, ?_, hp, hf, ?_, ?_⟩
    · rw [h4, List.getElem?_zipWith, hcell, hrep]
    · rw [h5, hp, hf, fmt_d_natCast, fmt_d_natCast]
      simp [report_lines, summary_line]
    · rw [run_entries_append, hbefore]
      simp only [run_entries, hcall]
      by_cases hflag : s2.current_test_failed = 0
      · simp [hflag, hwp]
      · simp [hflag, hwf1]
/-- C3: let the suite consist of the cells `c1`, then `e`, then `c2` (fewer than `2^31`
in all, bodies return and register nothing), let `r1` be what the loop has after the
iterations for `c1`, and let the body of `e`, called there, arrive in state `s1` at a first
failing assertion (`ASSERT_TRUE` with a false condition, or `ASSERT_FAIL`, at any depth).
Then the body returns at once, in the state `s1` plus the assertion's line and the flag:
no later statement has run and the client variables keep the values they had at the
assertion. `lite_test_run_all` returns, its log and report classify `e` as failed, its
counters are the numbers of reports classified passed and failed, and its output is the
report. After the iteration for `e` the loop has `failed + 1`, `passed` unchanged, and
`[FAIL] <name>` printed. -/
theorem failing_assertion_fails_test (code : Nat → Stmt σ) (fuel : Nat) (s s1 : State σ)
    (c1 c2 : List (Nat × Test)) (e : Nat × Test) (r1 : RunResult σ)
    (hwf : well_formed s (c1 ++ e :: c2))
    (hreg : ∀ x ∈ c1 ++ e :: c2, registers_nothing (code x.2.func))
    (hret : ∀ x ∈ c1 ++ e :: c2, returns (code x.2.func))
    (hfuel : (c1 ++ e :: c2).length < fuel) (hint : (c1 ++ e :: c2).length < 2147483648)
    (hbefore : run_entries code c1 0 0 [] s = some r1)
    (hfail : reaches_failing_assertion (code e.2.func)
      { r1.state with current_test_failed := 0 } s1) :
    ∃ (r : RunResult σ) (reps : List TestReport) (text : String),
      call (code e.2.func) { r1.state with current_test_failed := 0 }
        = some (lite_test_fail (emit text s1)) ∧
      (lite_test_fail (emit text s1)).user = s1.user ∧
      lite_test_run_all code fuel s = some r ∧
      test_reports code (entries (c1 ++ e :: c2)) s = some reps ∧
      reps[c1.length]? =
        some ⟨e.2.name, (s1.stdout ++ [text]).drop r1.state.stdout.length, true⟩ ∧
      r.log[c1.length]? = some ⟨e.1, 0, true⟩ ∧
      r.passed = reps.countP (fun r => !r.failed) ∧
      r.failed = reps.countP (fun r => r.failed) ∧
      r.state.stdout = s.stdout ++ report_lines reps ∧
      run_entries code (c1 ++ [e]) 0 0 [] s =
        some { state := emit ("[FAIL] " ++ e.2.name ++ "\n") (lite_test_fail (emit text s1)),
               passed := r1.passed, failed := r1.failed + 1,
               log := r1.log ++ [⟨e.1, 0, true⟩] } := by
  obtain ⟨text, hexec⟩ := exec_of_reaches_failing_assertion hfail
  have hcall := call_of_exec hexec
  obtain ⟨r, reps, h1, h2, h3, h4, h5, h6, h7, h8⟩ :=
    run_at_position code hwf hreg hret hfuel hint hbefore hcall
  have hflag : (lite_test_fail (emit text s1)).current_test_failed ≠ 0 := by
    simp [lite_test_fail]
  refine ⟨r, reps, text, hcall, rfl, h1, h2, ?_, ?_, h5, h6, h7, ?_⟩
  · rw [h3]; simp [lite_test_fail, emit]
  · rw [h4]; simp [lite_test_fail]
  · rw [h8, if_pos hflag]

/-- Witness for C3: the test `fresh` of the first sample, `ASSERT_TRUE(counter == 0)`,
registered after `mark`, which has set the counter to `1`. -/
theorem failing_assertion_fails_test_witness :
    ∃ (r : RunResult Int) (reps : List TestReport) (text : String),
      call (sample_code 4) (after_mark_state 0)
        = some (lite_test_fail (emit text (after_mark_state 0))) ∧
      (lite_test_fail (emit text (after_mark_state 0))).user = (after_mark_state 0).user ∧
      lite_test_run_all sample_code 3 mark_fresh_state = some r ∧
      test_reports sample_code
        (entries ([(1, ⟨"mark", 3, 2⟩)] ++ (2, ⟨"fresh", 4, 0⟩) :: [])) mark_fresh_state
        = some reps ∧
      reps[1]? = some ⟨"fresh",
        ((after_mark_state 0).stdout ++ [text]).drop (after_mark_state 1).stdout.length,
        true⟩ ∧
      r.log[1]? = some ⟨2, 0, true⟩ ∧
      r.passed = reps.countP (fun r => !r.failed) ∧
      r.failed = reps.countP (fun r => r.failed) ∧
      r.state.stdout = mark_fresh_state.stdout ++ report_lines reps ∧
      run_entries sample_code ([(1, ⟨"mark", 3, 2⟩)] ++ [(2, ⟨"fresh", 4, 0⟩)]) 0 0 []
          mark_fresh_state =
        some { state := emit ("[FAIL] " ++ "fresh" ++ "\n")
                 (lite_test_fail (emit text (after_mark_state 0))),
               passed := 0, failed := 1 + 1,
               log := [⟨1, 0, true⟩] ++ [⟨2, 0, true⟩] } :=
  failing_assertion_fails_test sample_code 3 mark_fresh_state (after_mark_state 0)
    [(1, ⟨"mark", 3, 2⟩)] [] (2, ⟨"fresh", 4, 0⟩)
    { state := after_mark_state 1, passed := 0, failed := 1, log := [⟨1, 0, true⟩] }
    ⟨by simp [chain, load, mark_fresh_state], by decide, rfl⟩
    (by
      intro x hx
      simp only [List.cons_append, List.nil_append, List.mem_cons, List.mem_singleton,
        List.not_mem_nil, or_false] at hx
      rcases hx with rfl | rfl <;>
        simp [sample_code, block, registers_nothing, ASSERT_TRUE, ASSERT_FAIL])
    (by
      intro x hx
      simp only [List.cons_append, List.nil_append, List.mem_cons, List.mem_singleton,
        List.not_mem_nil, or_false] at hx
      rcases hx with rfl | rfl <;>
        simp [sample_code, block, returns, ASSERT_TRUE, ASSERT_FAIL])
    (by decide) (by decide) rfl
    (reaches_failing_assertion.assert_true _ "t.c" 18 "counter == 0" (fun u => c_eq u 0) _
      rfl (by decide))
/-- An `ASSERT_TRUE` is a failing assertion only where its condition is false. -/
theorem reaches_failing_assertion_ASSERT_TRUE {file : String} {line : Nat} {text : String}
    {cond : σ → Int} {s s1 : State σ}
    (h : reaches_failing_assertion (ASSERT_TRUE file line text cond) s s1) :
    cond s.user = 0 := by
  have key : ∀ x : Int, c_not x ≠ 0 → x = 0 := by
    intro x hx
    unfold c_not at hx
    by_cases h0 : x = 0
    · exact h0
    · simp [h0] at hx
  unfold ASSERT_TRUE at h
  cases h with
  | assert_true b file2 line2 text2 cond2 s hb hc =>
    unfold ASSERT_TRUE at hb
    injection hb with hb
    injection hb with hb _
    have := congrFun hb s.user
    simp only [hc] at this
    exact key _ (by rw [this]; simp [c_not])
  | assert_fail b file2 line2 msg s hb =>
    unfold ASSERT_FAIL at hb
    injection hb with hb
    cases hb
  | do_while0 a s s1 h2 =>
    cases h2 with
    | assert_true b file2 line2 text2 cond2 s hb hc => unfold ASSERT_TRUE at hb; cases hb
    | assert_fail b file2 line2 msg s hb => unfold ASSERT_FAIL at hb; cases hb
    | if_then c a s s1 hc _ => exact key _ hc

/-- Counterexample to C4 as stated: the test `sticky` of the second sample,
`lite_test_fail(); ASSERT_TRUE(1 == 1);`. From no state does its body arrive at a failing
assertion (its only `ASSERT_TRUE` has a true condition, there is no `ASSERT_FAIL`), yet
alone in a suite it is counted as failed and reported `[FAIL] sticky`. -/
theorem direct_fail_counterexample :
    demo_code 3 = block [Stmt.call_fail, ASSERT_TRUE "d.c" 11 "1 == 1" (fun _ => c_eq 1 1)] ∧
    (∀ s s1 : State Int, ¬ reaches_failing_assertion (demo_code 3) s s1) ∧
    well_formed (single_state "sticky" 3 0) [(1, ⟨"sticky", 3, 0⟩)] ∧
    ∃ r, lite_test_run_all demo_code 2 (single_state "sticky" 3 0) = some r ∧
      r.passed = 0 ∧ r.failed = 1 ∧ r.log = [⟨1, 0, true⟩] ∧
      r.state.stdout = ["[FAIL] sticky\n", "Summary: 0 passed, 1 failed\n"] := by
  refine ⟨rfl, ?_, ⟨by simp [chain, load, single_state], by decide, rfl⟩, _, rfl,
    by decide, by decide, by decide, by decide⟩
  intro s s1 h
  have hd : demo_code 3 =
      Stmt.seq Stmt.call_fail
        (Stmt.seq (ASSERT_TRUE "d.c" 11 "1 == 1" (fun _ => c_eq 1 1)) Stmt.skip) := rfl
  rw [hd] at h
  cases h with
  | assert_true b file line text cond s hb hc => unfold ASSERT_TRUE at hb; cases hb
  | assert_fail b file line msg s hb => unfold ASSERT_FAIL at hb; cases hb
  | seq_first a b s s1 h2 =>
    cases h2 with
    | assert_true b file line text cond s hb hc => unfold ASSERT_TRUE at hb; cases hb
    | assert_fail b file line msg s hb => unfold ASSERT_FAIL at hb; cases hb
  | seq_second a b s s2 s1 ha h2 =>
    cases h2 with
    | assert_true b file line text cond s hb hc => unfold ASSERT_TRUE at hb; cases hb
    | assert_fail b file line msg s hb => unfold ASSERT_FAIL at hb; cases hb
    | seq_first a b s s1 h3 =>
      have := reaches_failing_assertion_ASSERT_TRUE h3
      simp [c_eq] at this
    | seq_second a b s s3 s1 ha2 h3 =>
      cases h3 with
      | assert_true b file line text cond s hb hc => unfold ASSERT_TRUE at hb; cases hb
      | assert_fail b file line msg s hb => unfold ASSERT_FAIL at hb; cases hb
/-- A call whose body reaches no call of `lite_test_fail` returns with the flag as it
was. -/
theorem call_flag_of_not_calls_fail {b : Stmt σ} {s s2 : State σ} (h : call b s = some s2)
    (hno : ¬ calls_fail b s) : s2.current_test_failed = s.current_test_failed := by
  unfold call at h
  cases he : exec b s with
  | none => rw [he] at h; cases h
  | some r =>
    obtain ⟨fl, s3⟩ := r
    rw [he] at h
    simp at h
    subst h
    exact exec_flag_of_not_calls_fail b he hno

/-- C4, amended: let the suite consist of the cells `c1`, then `e`, then `c2` (fewer than
`2^31` in all, bodies return and register nothing), and let `r1` be what the loop has
after the iterations for `c1`, whatever their outcomes. If the body of `e`, called there,
reaches no call of `lite_test_fail`, neither the one a failing `ASSERT_TRUE` or an
`ASSERT_FAIL` makes nor one written in the body itself, then it returns with the flag
clear, `lite_test_run_all` returns, its log and report classify `e` as passed, its
counters are the numbers of reports classified passed and failed, and its output is the
report. After the iteration for `e` the loop has `passed + 1`, `failed` unchanged, and
`[PASS] <name>` printed. -/
theorem passing_test_counts_passed (code : Nat → Stmt σ) (fuel : Nat) (s : State σ)
    (c1 c2 : List (Nat × Test)) (e : Nat × Test) (r1 : RunResult σ)
    (hwf : well_formed s (c1 ++ e :: c2))
    (hreg : ∀ x ∈ c1 ++ e :: c2, registers_nothing (code x.2.func))
    (hret : ∀ x ∈ c1 ++ e :: c2, returns (code x.2.func))
    (hfuel : (c1 ++ e :: c2).length < fuel) (hint : (c1 ++ e :: c2).length < 2147483648)
    (hbefore : run_entries code c1 0 0 [] s = some r1)
    (hno : ¬ calls_fail (code e.2.func) { r1.state with current_test_failed := 0 }) :
    ∃ (r : RunResult σ) (reps : List TestReport) (s2 : State σ),
      call (code e.2.func) { r1.state with current_test_failed := 0 } = some s2 ∧
      s2.current_test_failed = 0 ∧
      (∀ s1, ¬ reaches_failing_assertion (code e.2.func)
        { r1.state with current_test_failed := 0 } s1) ∧
      lite_test_run_all code fuel s = some r ∧
      test_reports code (entries (c1 ++ e :: c2)) s = some reps ∧
      reps[c1.length]? = some ⟨e.2.name, s2.stdout.drop r1.state.stdout.length, false⟩ ∧
      r.log[c1.length]? = some ⟨e.1, 0, false⟩ ∧
      r.passed = reps.countP (fun r => !r.failed) ∧
      r.failed = reps.countP (fun r => r.failed) ∧
      r.state.stdout = s.stdout ++ report_lines reps ∧
      run_entries code (c1 ++ [e]) 0 0 [] s =
        some { state := emit ("[PASS] " ++ e.2.name ++ "\n") s2,
               passed := r1.passed + 1, failed := r1.failed,
               log := r1.log ++ [⟨e.1, 0, false⟩] } := by
  obtain ⟨s2, hcall⟩ := call_returns { r1.state with current_test_failed := 0 }
    (hreg e (by simp)) (hret e (by simp))
  have hflag : s2.current_test_failed = 0 := call_flag_of_not_calls_fail hcall hno
  obtain ⟨r, reps, h1, h2, h3, h4, h5, h6, h7, h8⟩ :=
    run_at_position code hwf hreg hret hfuel hint hbefore hcall
  refine ⟨r, reps, s2, hcall, hflag,
    fun s1 h => hno (calls_fail_of_reaches_failing_assertion h), h1, h2, ?_, ?_, h5, h6, h7, ?_⟩
  · rw [h3]; simp [hflag]
  · rw [h4]; simp [hflag]
  · rw [h8]; simp [hflag]

/-- Witness for the amended C4: the test `ok` of the first sample, registered after
`bad`, which has failed. -/
theorem passing_test_counts_passed_witness :
    ∃ (r : RunResult Int) (reps : List TestReport) (s2 : State Int),
      call (sample_code 2) (after_bad_state 0) = some s2 ∧
      s2.current_test_failed = 0 ∧
      (∀ s1, ¬ reaches_failing_assertion (sample_code 2) (after_bad_state 0) s1) ∧
      lite_test_run_all sample_code 3 sample_state = some r ∧
      test_reports sample_code
        (entries ([(1, ⟨"bad", 1, 2⟩)] ++ (2, ⟨"ok", 2, 0⟩) :: [])) sample_state
        = some reps ∧
      reps[1]? = some ⟨"ok", s2.stdout.drop (after_bad_state 1).stdout.length, false⟩ ∧
      r.log[1]? = some ⟨2, 0, false⟩ ∧
      r.passed = reps.countP (fun r => !r.failed) ∧
      r.failed = reps.countP (fun r => r.failed) ∧
      r.state.stdout = sample_state.stdout ++ report_lines reps ∧
      run_entries sample_code ([(1, ⟨"bad", 1, 2⟩)] ++ [(2, ⟨"ok", 2, 0⟩)]) 0 0 []
          sample_state =
        some { state := emit ("[PASS] " ++ "ok" ++ "\n") s2,
               passed := 0 + 1, failed := 1,
               log := [⟨1, 0, true⟩] ++ [⟨2, 0, false⟩] } :=
  passing_test_counts_passed sample_code 3 sample_state
    [(1, ⟨"bad", 1, 2⟩)] [] (2, ⟨"ok", 2, 0⟩)
    { state := after_bad_state 1, passed := 0, failed := 1, log := [⟨1, 0, true⟩] }
    sample_well_formed sample_registers_nothing sample_returns (by decide) (by decide) rfl
    (by simp [sample_code, ASSERT_EQ, calls_fail_ASSERT_TRUE, c_eq])

end LiteTest
